import Mathlib

/-!
Verification of the rappterbook-vm single-page application core.

Shallow embedding of the JavaScript sources (src/js/markdown.js,
src/js/router.js, src/js/state.js, src/js/discussions.js,
src/js/render.js, src/js/auth.js) into Lean.  Strings are modelled as
`List Char` (JavaScript strings), the regex-based transforms of the
markdown renderer are embedded as character-level scanners that follow
the semantics of the concrete regular expressions appearing in the
source, and the network is modelled as an explicit server oracle so
that the fetch functions become pure functions of the server's
responses.
-/

namespace RB_MARKDOWN

/-- The backtick character (written via its code point). -/
def btick : Char := Char.ofNat 96

/-- The apostrophe / single-quote character (written via its code point). -/
def squote : Char := Char.ofNat 39

/-- JavaScript `\w` word characters: ASCII letters, digits, underscore. -/
def isWordChar (c : Char) : Bool :=
  ('a' ≤ c ∧ c ≤ 'z') ∨ ('A' ≤ c ∧ c ≤ 'Z') ∨ ('0' ≤ c ∧ c ≤ '9') ∨ c = '_'

/-- JavaScript `\s` whitespace characters (the common ASCII ones). -/
def isJsWs (c : Char) : Bool :=
  c = ' ' ∨ c = '\t' ∨ c = '\n' ∨ c = '\r' ∨ c = Char.ofNat 11 ∨ c = Char.ofNat 12

/-- `s.replace(/c/g, rep)` for a single-character pattern: replace every
occurrence of `c` by `rep`. -/
def replaceCharL (c : Char) (rep : List Char) : List Char → List Char
  | [] => []
  | x :: xs => if x = c then rep ++ replaceCharL c rep xs else x :: replaceCharL c rep xs

/-- `escapeHtml` from markdown.js: sequentially replace `&`, `<`, `>`, `"`
by their entities (in exactly that order, as the source does). -/
def escapeHtmlL (s : List Char) : List Char :=
  replaceCharL '"' "&quot;".data
    (replaceCharL '>' "&gt;".data
      (replaceCharL '<' "&lt;".data
        (replaceCharL '&' "&amp;".data s)))

/-- String-level wrapper for `escapeHtml`. -/
def escapeHtml (s : String) : String := ⟨escapeHtmlL s.data⟩

/-- Greedy `\w*`: split off the maximal word-character run. -/
def takeWord : List Char → List Char × List Char
  | [] => ([], [])
  | c :: cs =>
    if isWordChar c then
      let p := takeWord cs
      (c :: p.1, p.2)
    else ([], c :: cs)

/-- Split a string at the first occurrence of a triple backtick,
returning the part before and the part after it. -/
def findFence : List Char → Option (List Char × List Char)
  | [] => none
  | c :: cs =>
    if c = btick ∧ cs.take 2 = [btick, btick] then some ([], cs.drop 2)
    else (findFence cs).map (fun p => (c :: p.1, p.2))

/-- One attempt of the fenced-code-block regex
`/```(\w*)\n([\s\S]*?)```/` at the start of the string: an opening
triple backtick, an optional language tag, a newline, then the (lazy)
body up to the first closing triple backtick.  Returns
`(lang, body, rest)` on success. -/
def matchFenceAt (l : List Char) : Option (List Char × List Char × List Char) :=
  if l.take 3 = [btick, btick, btick] then
    match takeWord (l.drop 3) with
    | (lang, c :: r2) =>
      if c = '\n' then
        match findFence r2 with
        | some q => some (lang, q.1, q.2)
        | none => none
      else none
    | (_, []) => none
  else none

theorem takeWord_len (l : List Char) :
    (takeWord l).1.length + (takeWord l).2.length = l.length := by
  induction l with
  | nil => simp [takeWord]
  | cons c cs ih =>
    simp only [takeWord]
    by_cases h : isWordChar c = true <;> simp [h, ih] <;> omega

theorem findFence_len : ∀ {l b a : List Char}, findFence l = some (b, a) →
    a.length + 3 ≤ l.length
  | [], b, a, h => by simp [findFence] at h
  | c :: cs, b, a, h => by
    simp only [findFence] at h
    split at h
    · rename_i hc
      have h2 : cs.take 2 = [btick, btick] := hc.2
      have hlen : 2 ≤ cs.length := by
        have := congrArg List.length h2
        simp [List.length_take] at this
        omega
      have ha : a = cs.drop 2 := by
        injection h with h'
        exact (congrArg Prod.snd h').symm
      subst ha
      rw [List.length_drop, List.length_cons]
      omega
    · cases hf : findFence cs with
      | none => rw [hf] at h; simp at h
      | some p =>
        rw [hf] at h
        simp only [Option.map_some'] at h
        injection h with h'
        have ha : p.2 = a := congrArg Prod.snd h'
        have := findFence_len (l := cs) (b := p.1) (a := p.2) (by rw [hf])
        rw [ha] at this
        simp only [List.length_cons]
        omega

theorem matchFenceAt_len {l lang body rest : List Char}
    (h : matchFenceAt l = some (lang, body, rest)) : rest.length < l.length := by
  unfold matchFenceAt at h
  by_cases h3 : l.take 3 = [btick, btick, btick]
  case neg => simp [h3] at h
  case pos =>
    rw [if_pos h3] at h
    have hlen3 : 3 ≤ l.length := by
      have := congrArg List.length h3
      simp [List.length_take] at this
      omega
    have htw := takeWord_len (l.drop 3)
    cases hw : takeWord (l.drop 3) with
    | mk lang' r1 =>
      rw [hw] at h htw
      cases r1 with
      | nil => simp at h
      | cons c r2 =>
        simp only at h
        by_cases hc : c = '\n'
        · rw [if_pos hc] at h
          cases hf : findFence r2 with
          | none => rw [hf] at h; simp at h
          | some q =>
            rw [hf] at h
            simp only [Option.some.injEq] at h
            have hrest : rest = q.2 := by
              have := congrArg (fun t => t.2.2) h
              exact this.symm
            subst hrest
            have hfl := findFence_len (l := r2) (b := q.1) (a := q.2) (by rw [hf])
            simp only [List.length_cons] at htw
            simp only [List.length_drop] at htw
            omega
        · rw [if_neg hc] at h
          simp at h

/-- The placeholder text `%%CODEBLOCK_i%%` used during extraction. -/
def codePlaceholder (i : Nat) : List Char := ("%%CODEBLOCK_" ++ toString i ++ "%%").data

/-- `code.replace(/\n$/, '')`: drop a single trailing newline. -/
def stripTrailNl (l : List Char) : List Char :=
  match l.getLast? with
  | some c => if c = '\n' then l.dropLast else l
  | none => l

/-- The stored HTML for an extracted code block:
`<pre><code class="language-lang">body</code></pre>` (the class
attribute only when a language tag is present, as in the source). -/
def storedBlock (lang body : List Char) : List Char :=
  "<pre><code".data ++
    (if lang = [] then [] else " class=\"language-".data ++ lang ++ "\"".data) ++
    ">".data ++ stripTrailNl body ++ "</code></pre>".data

/-- Global application of the fenced-code-block regex: replace each
fenced block by a numbered placeholder and collect the stored HTML
blocks, scanning left to right exactly as the JavaScript `replace`
does. -/
def extractFences (l : List Char) (i : Nat) : List Char × List (List Char) :=
  match l with
  | [] => ([], [])
  | c :: cs =>
    match hm : matchFenceAt (c :: cs) with
    | some t =>
      let p := extractFences t.2.2 (i + 1)
      (codePlaceholder i ++ p.1, storedBlock t.1 t.2.1 :: p.2)
    | none =>
      let p := extractFences cs i
      (c :: p.1, p.2)
termination_by l.length
decreasing_by
  · exact matchFenceAt_len hm
  · simp

/-- Not a backtick and not a newline (the `[^`\n]` class of the inline-code
regex, and `[^\n*]` analogue for bold/italic uses `nonStar`). -/
def nonTick (x : Char) : Bool := !(x = btick || x = '\n')

/-- The `[^\n*]` character class of the bold and italic regexes. -/
def nonStar (x : Char) : Bool := !(x = '*' || x = '\n')

/-- Inline code spans: `/`([^`\n]+)`/g` — an opening backtick, one or more
characters that are neither backtick nor newline, and a closing backtick;
replaced by `<code>…</code>`.  On a failed attempt the scan advances one
character, as the regex engine does. -/
def inlineCode : List Char → List Char
  | [] => []
  | c :: cs =>
    if c = btick then
      match hr : cs.drop (cs.takeWhile nonTick).length with
      | r :: rs =>
        if r = btick ∧ cs.takeWhile nonTick ≠ [] then
          "<code>".data ++ cs.takeWhile nonTick ++ "</code>".data ++ inlineCode rs
        else c :: inlineCode cs
      | [] => c :: inlineCode cs
    else c :: inlineCode cs
termination_by l => l.length
decreasing_by
  · have := congrArg List.length hr
    simp only [List.length_drop, List.length_cons] at this
    simp only [List.length_cons]
    omega
  all_goals simp

/-- Split a string into its newline-separated lines. -/
def splitNl : List Char → List (List Char)
  | [] => [[]]
  | c :: cs =>
    match splitNl cs with
    | [] => [[c]]
    | s :: rest => if c = '\n' then [] :: s :: rest else (c :: s) :: rest

/-- Join lines back with newlines. -/
def joinNl (ls : List (List Char)) : List Char := List.intercalate ['\n'] ls

/-- Apply a per-line transform (the effect of an `^…$` regex with the `gm`
flags). -/
def mapLines (f : List Char → List Char) (l : List Char) : List Char :=
  joinNl ((splitNl l).map f)

/-- One header replacement `/^#+ (.+)$/gm` on a single line: the given hash
run, a space, and at least one further character. -/
def headerLinePass (hashes openTag closeTag line : List Char) : List Char :=
  if line.take (hashes.length + 1) = hashes ++ [' '] ∧ hashes.length + 1 < line.length then
    openTag ++ line.drop (hashes.length + 1) ++ closeTag
  else line

/-- The three header passes of the source, in source order: `###`, `##`, `#`. -/
def headerStage (l : List Char) : List Char :=
  mapLines (headerLinePass "#".data "<h1>".data "</h1>".data)
    (mapLines (headerLinePass "##".data "<h2>".data "</h2>".data)
      (mapLines (headerLinePass "###".data "<h3>".data "</h3>".data) l))

/-- Bold: `/\*\*([^\n*]+)\*\*/g`. -/
def boldPass : List Char → List Char
  | [] => []
  | c :: cs =>
    if c = '*' ∧ cs.take 1 = ['*'] then
      if ((cs.drop 1).takeWhile nonStar) ≠ [] ∧
          (((cs.drop 1).drop ((cs.drop 1).takeWhile nonStar).length).take 2 = ['*', '*']) then
        "<strong>".data ++ (cs.drop 1).takeWhile nonStar ++ "</strong>".data ++
          boldPass (((cs.drop 1).drop ((cs.drop 1).takeWhile nonStar).length).drop 2)
      else c :: boldPass cs
    else c :: boldPass cs
termination_by l => l.length
decreasing_by
  · simp only [List.length_drop, List.length_cons]
    omega
  all_goals simp

/-- Italic: `/(?<!\*)\*([^\n*]+)\*(?!\*)/g`.  The first argument is the
character preceding the current scan position (for the lookbehind). -/
def italicGo : Option Char → List Char → List Char
  | _, [] => []
  | prev, c :: cs =>
    if c = '*' ∧ prev ≠ some '*' then
      if cs.takeWhile nonStar ≠ [] ∧
          (cs.drop (cs.takeWhile nonStar).length).take 1 = ['*'] ∧
          ((cs.drop (cs.takeWhile nonStar).length).drop 1).take 1 ≠ ['*'] then
        "<em>".data ++ cs.takeWhile nonStar ++ "</em>".data ++
          italicGo (some '*') ((cs.drop (cs.takeWhile nonStar).length).drop 1)
      else c :: italicGo (some c) cs
    else c :: italicGo (some c) cs
termination_by _ l => l.length
decreasing_by
  · simp only [List.length_drop, List.length_cons]
    omega
  all_goals simp

/-- `https?://` scheme check of the link regex; returns the scheme length. -/
def schemeLen (l : List Char) : Option Nat :=
  if l.take 8 = "https://".data then some 8
  else if l.take 7 = "http://".data then some 7
  else none

/-- The link text `[^\]]+` part following an opening bracket. -/
def linkTxt (cs : List Char) : List Char := cs.takeWhile (fun x => x ≠ ']')

/-- What follows the link text. -/
def linkRest (cs : List Char) : List Char := cs.drop (linkTxt cs).length

/-- What follows the `](` separator. -/
def linkAfter (cs : List Char) : List Char := (linkRest cs).drop 2

/-- The `[^)]+` URL tail after the scheme. -/
def urlTail (a : List Char) (k : Nat) : List Char := (a.drop k).takeWhile (fun x => x ≠ ')')

/-- What follows the URL tail. -/
def urlRest2 (a : List Char) (k : Nat) : List Char := (a.drop k).drop (urlTail a k).length

/-- One attempt of the link regex `/\[([^\]]+)\]\((https?:\/\/[^)]+)\)/`
just after an opening `[`; returns the replacement and the rest on
success. -/
def tryLink (cs : List Char) : Option (List Char × List Char) :=
  if linkTxt cs ≠ [] ∧ (linkRest cs).take 2 = [']', '('] then
    match schemeLen (linkAfter cs) with
    | some k =>
      if urlTail (linkAfter cs) k ≠ [] ∧ (urlRest2 (linkAfter cs) k).take 1 = [')'] then
        some ("<a href=\"".data ++ (linkAfter cs).take k ++ urlTail (linkAfter cs) k ++
          "\" target=\"_blank\" rel=\"noopener\">".data ++ linkTxt cs ++ "</a>".data,
          (urlRest2 (linkAfter cs) k).drop 1)
      else none
    | none => none
  else none

theorem tryLink_len {cs : List Char} {p : List Char × List Char}
    (h : tryLink cs = some p) : p.2.length ≤ cs.length := by
  unfold tryLink at h
  split at h
  · split at h
    · split at h
      · injection h with h'
        subst h'
        simp only [urlRest2, linkAfter, linkRest, List.length_drop]
        omega
      · simp at h
    · simp at h
  · simp at h

/-- Links pass `/\[([^\]]+)\]\((https?:\/\/[^)]+)\)/g`. -/
def linkPass : List Char → List Char
  | [] => []
  | c :: cs =>
    if c = '[' then
      match ht : tryLink cs with
      | some p => p.1 ++ linkPass p.2
      | none => c :: linkPass cs
    else c :: linkPass cs
termination_by l => l.length
decreasing_by
  · have := tryLink_len ht
    simp only [List.length_cons]
    omega
  all_goals simp

/-- A line belonging to a list block: `^- .+$`. -/
def isListLine (l : List Char) : Bool := l.take 2 = ['-', ' '] ∧ 3 ≤ l.length

/-- `<li>${line.replace(/^- /, '')}</li>` for a list line. -/
def liOf (l : List Char) : List Char := "<li>".data ++ l.drop 2 ++ "</li>".data

/-- Unordered-list pass on the line decomposition: each maximal run of
contiguous list lines becomes a single `<ul>…</ul>` line. -/
def groupLists : List (List Char) → List (List Char)
  | [] => []
  | l :: ls =>
    if hl : isListLine l then
      ("<ul>".data ++ (((l :: ls).takeWhile isListLine).map liOf).flatten ++ "</ul>".data)
        :: groupLists ((l :: ls).dropWhile isListLine)
    else l :: groupLists ls
termination_by ls => ls.length
decreasing_by
  · rw [List.dropWhile_cons_of_pos hl]
    exact Nat.lt_of_le_of_lt (List.dropWhile_suffix _).length_le (by simp)
  · simp

/-- The list stage applied to the whole string. -/
def listStage (l : List Char) : List Char := joinNl (groupLists (splitNl l))

/-- `html.split(/\n\n+/)`: split on runs of two or more newlines. -/
def splitBlocks : List Char → List (List Char)
  | [] => [[]]
  | c :: cs =>
    if c = '\n' ∧ cs.take 1 = ['\n'] then
      [] :: splitBlocks (cs.dropWhile (fun x => x = '\n'))
    else
      match splitBlocks cs with
      | [] => [[c]]
      | b :: bs => (c :: b) :: bs
termination_by l => l.length
decreasing_by
  · exact Nat.lt_of_le_of_lt (List.dropWhile_suffix _).length_le (by simp)
  · simp

/-- JavaScript `trim()` (over the modelled whitespace set). -/
def trimJs (l : List Char) : List Char :=
  ((l.dropWhile isJsWs).reverse.dropWhile isJsWs).reverse

/-- The block-level test `/^<(h[1-3]|ul|pre|%%CODEBLOCK)/` — note that it
requires a literal `<` first, so a bare `%%CODEBLOCK_i%%` placeholder does
NOT pass this test (it gets paragraph-wrapped). -/
def startsBlockTag (l : List Char) : Bool :=
  l.take 3 = "<h1".data ∨ l.take 3 = "<h2".data ∨ l.take 3 = "<h3".data ∨
  l.take 3 = "<ul".data ∨ l.take 4 = "<pre".data ∨ l.take 12 = "<%%CODEBLOCK".data

/-- Paragraph wrapping of one block. -/
def paraWrap (b : List Char) : List Char :=
  if trimJs b = [] then []
  else if startsBlockTag (trimJs b) then trimJs b
  else "<p>".data ++ trimJs b ++ "</p>".data

/-- Paragraph stage: split into blocks, wrap, and rejoin with newlines. -/
def paraStage (l : List Char) : List Char := joinNl ((splitBlocks l).map paraWrap)

/-- Split at the first occurrence of `</p>`. -/
def findCloseP : List Char → Option (List Char × List Char)
  | [] => none
  | c :: cs =>
    if c = '<' ∧ cs.take 3 = "/p>".data then some ([], cs.drop 3)
    else (findCloseP cs).map (fun p => (c :: p.1, p.2))

theorem findCloseP_len : ∀ {l b a : List Char}, findCloseP l = some (b, a) →
    a.length + 4 ≤ l.length
  | [], b, a, h => by simp [findCloseP] at h
  | c :: cs, b, a, h => by
    simp only [findCloseP] at h
    split at h
    · rename_i hc
      have h2 : cs.take 3 = "/p>".data := hc.2
      have hlen : 3 ≤ cs.length := by
        have := congrArg List.length h2
        simp [List.length_take] at this
        omega
      have ha : a = cs.drop 3 := by
        injection h with h'
        exact (congrArg Prod.snd h').symm
      subst ha
      rw [List.length_drop, List.length_cons]
      omega
    · cases hf : findCloseP cs with
      | none => rw [hf] at h; simp at h
      | some p =>
        rw [hf] at h
        simp only [Option.map_some'] at h
        injection h with h'
        have ha : p.2 = a := congrArg Prod.snd h'
        have := findCloseP_len (l := cs) (b := p.1) (a := p.2) (by rw [hf])
        rw [ha] at this
        simp only [List.length_cons]
        omega

/-- Line-break pass `/<p>([\s\S]*?)<\/p>/g`: single newlines inside each
paragraph become `<br>`. -/
def brPass : List Char → List Char
  | [] => []
  | c :: cs =>
    if c = '<' ∧ cs.take 2 = "p>".data then
      match hf : findCloseP (cs.drop 2) with
      | some p =>
        "<p>".data ++ replaceCharL '\n' "<br>".data p.1 ++ "</p>".data ++ brPass p.2
      | none => c :: brPass cs
    else c :: brPass cs
termination_by l => l.length
decreasing_by
  · have := findCloseP_len hf
    simp only [List.length_drop] at this
    simp only [List.length_cons]
    omega
  all_goals simp

/-- ECMAScript `GetSubstitution` for a string-pattern `String.replace`:
scanning the replacement template, `$$` yields `$`, `$&` yields the
matched text, `` $` `` yields the part of the subject before the match and
`$'` the part after it; every other use of `$` is literal (a string
search has no capture groups, so `$n` and `$<…>` stay unchanged). -/
def getSubstitution (matched before after : List Char) : List Char → List Char
  | [] => []
  | c :: cs =>
    if c = '$' then
      match cs with
      | [] => ['$']
      | d :: rest =>
        if d = '$' then '$' :: getSubstitution matched before after rest
        else if d = '&' then matched ++ getSubstitution matched before after rest
        else if d = btick then before ++ getSubstitution matched before after rest
        else if d = squote then after ++ getSubstitution matched before after rest
        else '$' :: getSubstitution matched before after (d :: rest)
    else c :: getSubstitution matched before after cs

/-- A character that makes `'$' :: c` a substitution pattern. -/
def isSubstChar (c : Char) : Bool :=
  c = '$' || c = '&' || c = btick || c = squote

/-- No `$`-substitution pattern occurs in the string: wherever a `$` is
immediately followed by another character, that character is not one of
`$`, `&`, backtick, quote.  On such replacement templates
`getSubstitution` is the identity. -/
def dollarSafe : List Char → Bool
  | c :: d :: rest => (!(c = '$' && isSubstChar d)) && dollarSafe (d :: rest)
  | _ => true

/-- JavaScript `String.replace` with a string pattern: replace only the
first occurrence, expanding `$`-patterns in the replacement per
`GetSubstitution` (as the code-block restore on markdown.js line 67
does). -/
def replaceFirstL (pat rep : List Char) (l : List Char) : List Char :=
  go [] l
where
  go (pre : List Char) : List Char → List Char
    | [] => []
    | c :: cs =>
      if (c :: cs).take pat.length = pat then
        getSubstitution pat pre.reverse ((c :: cs).drop pat.length) rep ++
          (c :: cs).drop pat.length
      else c :: go (c :: pre) cs

/-- Restore the extracted code blocks into their placeholders, in order. -/
def restoreBlocks : List (List Char) → Nat → List Char → List Char
  | [], _, html => html
  | b :: bs, i, html => restoreBlocks bs (i + 1) (replaceFirstL (codePlaceholder i) b html)

/-- Steps 3–6 of render: everything between code-block extraction and
code-block restoration. -/
def inlineStages (l : List Char) : List Char :=
  brPass (paraStage (listStage (linkPass (italicGo none (boldPass (headerStage (inlineCode l)))))))

/-- The pipeline of `render` after the initial HTML escape. -/
def renderFromEscaped (l : List Char) : List Char :=
  restoreBlocks (extractFences l 0).2 0 (inlineStages (extractFences l 0).1)

/-- `render` on character lists. -/
def renderL (text : List Char) : List Char := renderFromEscaped (escapeHtmlL text)

/-- `RB_MARKDOWN.render`: empty (falsy) input short-circuits to `""`;
otherwise escape first, then run the rest of the pipeline. -/
def render (text : String) : String :=
  if text = "" then "" else ⟨renderL text.data⟩

end RB_MARKDOWN

namespace RB_ROUTER

/-- Split a route pattern or hash on `/` (the regex built by `matchRoute`
replaces each `:name` segment by `([^/]+)` and anchors the whole pattern,
so for the slash-delimited patterns of the routes table matching is
segmentwise: literal segments must be equal, a `:name` segment matches
exactly one non-empty run of non-slash characters). -/
def splitSeg : List Char → List (List Char)
  | [] => [[]]
  | c :: cs =>
    match splitSeg cs with
    | [] => [[c]]
    | s :: rest => if c = '/' then [] :: s :: rest else (c :: s) :: rest

/-- A pattern segment of the form `:name` (at least one character after the
colon), which the source turns into a `([^/]+)` capture group. -/
def isParamSeg : List Char → Bool
  | c :: _ :: _ => c = ':'
  | _ => false

/-- The declared name of a `:name` segment (everything after the colon). -/
def paramName (l : List Char) : List Char := l.tail

/-- Match a list of pattern segments against a list of hash segments,
collecting `(name, value)` bindings.  Mirrors the anchored regex: the
segment counts must agree exactly. -/
def matchSegs : List (List Char) → List (List Char) → Option (List (List Char × List Char))
  | [], [] => some []
  | p :: ps, h :: hs =>
    match matchSegs ps hs with
    | none => none
    | some bs =>
      if isParamSeg p then
        if h = [] then none else some ((paramName p, h) :: bs)
      else if p = h then some bs
      else none
  | _, _ => none

/-- `matchRoute`'s single-pattern test, on strings. -/
def matchPattern (pattern hash : String) : Option (List (String × String)) :=
  (matchSegs (splitSeg pattern.data) (splitSeg hash.data)).map
    (fun bs => bs.map (fun b => (⟨b.1⟩, ⟨b.2⟩)))

/-- Scan an ordered route table for the first matching pattern
(`RB_ROUTER.matchRoute`'s loop over `Object.entries(this.routes)`). -/
def matchRouteWith : List (String × String) → String → Option (String × List (String × String))
  | [], _ => none
  | (p, handler) :: rest, hash =>
    match matchPattern p hash with
    | some params => some (handler, params)
    | none => matchRouteWith rest hash

/-- The routes table of router.js, in declaration order. -/
def routes : List (String × String) :=
  [("/", "handleHome"),
   ("/channels", "handleChannels"),
   ("/channels/:slug", "handleChannel"),
   ("/agents", "handleAgents"),
   ("/agents/:id/soul", "handleSoul"),
   ("/agents/:id", "handleAgent"),
   ("/trending", "handleTrending"),
   ("/explore", "handleExplore"),
   ("/discussions/:number", "handleDiscussion"),
   ("/ghosts", "handleGhosts"),
   ("/summons", "handleSummons"),
   ("/pulse", "handlePulse"),
   ("/leaderboard", "handleLeaderboard"),
   ("/arena", "handleArena"),
   ("/vault", "handleVault"),
   ("/predictions", "handlePredictions"),
   ("/explorer", "handleExplorer"),
   ("/pokes", "handlePokes"),
   ("/vitals", "handleVitals"),
   ("/cipher", "handleCipher"),
   ("/heatmap", "handleHeatmap"),
   ("/forge", "handleForge"),
   ("/terminal", "handleTerminal"),
   ("/radar", "handleRadar"),
   ("/heartbeat", "handleHeartbeat"),
   ("/orbit", "handleOrbit"),
   ("/constellation", "handleConstellation"),
   ("/tarot", "handleTarot"),
   ("/whispers", "handleWhispers"),
   ("/seance", "handleSeance"),
   ("/matrix", "handleMatrix"),
   ("/elements", "handleElements"),
   ("/aquarium", "handleAquarium"),
   ("/dna", "handleDna"),
   ("/ouija", "handleOuija"),
   ("/blackhole", "handleBlackhole"),
   ("/synth", "handleSynth"),
   ("/typewriter", "handleTypewriter"),
   ("/glitch", "handleGlitch"),
   ("/warmap", "handleWarmap"),
   ("/compose", "handleCompose"),
   ("/me", "handleMe"),
   ("/search/:query", "handleSearch"),
   ("/search", "handleSearch"),
   ("/notifications", "handleNotifications")]

/-- `RB_ROUTER.matchRoute`. -/
def matchRoute (hash : String) : Option (String × List (String × String)) :=
  matchRouteWith routes hash

end RB_ROUTER

namespace RB_STATE

/-- A cache entry: `{ data, timestamp }`. -/
structure CacheEntry (α : Type) where
  data : α
  timestamp : Nat
deriving DecidableEq

/-- `cacheExpiry`: one minute, in milliseconds. -/
def cacheExpiry : Nat := 60000

/-- Whether a stored entry is still fresh at time `now`
(`now - entry.timestamp < cacheExpiry`; with ℕ truncated subtraction this
agrees with the JavaScript comparison whenever `timestamp ≤ now`, and both
sides also call a future-stamped entry fresh). -/
def entryFresh {α : Type} (e : CacheEntry α) (now : Nat) : Bool :=
  now - e.timestamp < cacheExpiry

/-- `RB_STATE.getCached key fetcher`, as a pure state transformer: given the
cache and the current time, return the value, the updated cache, and
whether the producer (`fetcher`) was invoked. -/
def getCached {α : Type} (cache : String → Option (CacheEntry α)) (now : Nat)
    (key : String) (fetch : α) : α × (String → Option (CacheEntry α)) × Bool :=
  match cache key with
  | some e =>
    if entryFresh e now then (e.data, cache, false)
    else (fetch, fun k => if k = key then some ⟨fetch, now⟩ else cache k, true)
  | none => (fetch, fun k => if k = key then some ⟨fetch, now⟩ else cache k, true)

end RB_STATE

namespace RB_AUTH

/-- JavaScript truthiness of a stored string slot (localStorage value):
absent or empty is falsy. -/
def tokenTruthy : Option String → Bool
  | none => false
  | some s => s ≠ ""

/-- `RB_AUTH.isAuthenticated() = !!this.getToken()`, as a function of the
stored token. -/
def isAuthenticated (token : Option String) : Bool := tokenTruthy token

end RB_AUTH

namespace RB_DISCUSSIONS

/-- `x || null` on an optional number (JavaScript: `0` is falsy). -/
def natOrNull : Option Nat → Option Nat
  | some 0 => none
  | v => v

/-- `x || null` on an optional string (JavaScript: `''` is falsy). -/
def strOrNull : Option String → Option String
  | some "" => none
  | v => v

/-- Try to drop a literal pattern from the front of a string. -/
def dropLit (pat l : List Char) : Option (List Char) :=
  if l.take pat.length = pat then some (l.drop pat.length) else none

/-- One attempt of a byline regex `opener([^*]+)\*\*\*` at the start of the
string: the literal opener (`*Posted by **` for posts, `*— **` for
comments), then one or more non-`*` characters (the captured name), then a
literal `***`.  Returns `(name, rest after the closing stars)`. -/
def bylineNameAt (opener l : List Char) : Option (List Char × List Char) :=
  match dropLit opener l with
  | none => none
  | some r1 =>
    if (r1.takeWhile (fun x => x ≠ '*')) ≠ [] ∧
        (r1.drop (r1.takeWhile (fun x => x ≠ '*')).length).take 3 = ['*', '*', '*'] then
      some (r1.takeWhile (fun x => x ≠ '*'),
        (r1.drop (r1.takeWhile (fun x => x ≠ '*')).length).drop 3)
    else none

/-- Try a pattern at every line start of the string (the effect of the `m`
flag on a `^`-anchored regex): position 0 first, then right after each
newline, left to right. -/
def scanLineStarts {α : Type} (pat : List Char → Option α) (l : List Char) : Option α :=
  match pat l with
  | some a => some a
  | none => go l
where
  go : List Char → Option α
    | [] => none
    | c :: r =>
      if c = '\n' then
        match pat r with
        | some a => some a
        | none => go r
      else go r

/-- `RB_DISCUSSIONS.extractAuthor`: `body.match(/^\*Posted by \*\*([^*]+)\*\*\*/m)`
first, then `body.match(/^\*— \*\*([^*]+)\*\*\*/m)` — note the `m` flag:
the byline is recognised at the start of ANY line, not only the first. -/
def extractAuthor (body : String) : Option String :=
  if body = "" then none
  else
    match scanLineStarts (bylineNameAt "*Posted by **".data) body.data with
    | some p => some ⟨p.1⟩
    | none =>
      match scanLineStarts (bylineNameAt "*— **".data) body.data with
      | some p => some ⟨p.1⟩
      | none => none

/-- The post-byline strip regex `/^\*Posted by \*\*[^*]+\*\*\*\s*\n---\s*\n?/`
(no `m` flag: anchored at the very start).  After the closing `***` the
maximal whitespace run must end in a newline and be followed by `---`;
everything up to and including the whitespace after `---` is removed. -/
def stripPostBylineAt (l : List Char) : Option (List Char) :=
  match bylineNameAt "*Posted by **".data l with
  | none => none
  | some p =>
    if (p.2.takeWhile RB_MARKDOWN.isJsWs) ≠ [] ∧
        (p.2.takeWhile RB_MARKDOWN.isJsWs).getLast? = some '\n' ∧
        (p.2.drop (p.2.takeWhile RB_MARKDOWN.isJsWs).length).take 3 = ['-', '-', '-'] then
      some (((p.2.drop (p.2.takeWhile RB_MARKDOWN.isJsWs).length).drop 3).dropWhile
        RB_MARKDOWN.isJsWs)
    else none

/-- The comment-byline strip regex `/^\*— \*\*[^*]+\*\*\*\s*\n?/`
(anchored at the very start). -/
def stripCommentBylineAt (l : List Char) : Option (List Char) :=
  match bylineNameAt "*— **".data l with
  | none => none
  | some p => some (p.2.dropWhile RB_MARKDOWN.isJsWs)

/-- `RB_DISCUSSIONS.stripByline`: empty input is returned as-is; otherwise
the post byline (with its `---` separator) is stripped if present at the
start, then the comment byline likewise. -/
def stripByline (body : String) : String :=
  if body = "" then body
  else
    match stripPostBylineAt body.data with
    | some r =>
      (match stripCommentBylineAt r with
       | some r2 => ⟨r2⟩
       | none => ⟨r⟩)
    | none =>
      match stripCommentBylineAt body.data with
      | some r2 => ⟨r2⟩
      | none => body

/-- Outcome of one HTTP request: a response with a status and a parsed
body, or a network/parse failure (a rejected or throwing `fetch`). -/
inductive HttpResult (α : Type) where
  | success (status : Nat) (body : α)
  | failure
deriving DecidableEq

/-- `response.ok`: status in the 2xx range. -/
def okStatus (st : Nat) : Bool := 200 ≤ st ∧ st ≤ 299

/-- The raw JSON shape of a GitHub discussion, restricted to the fields the
source reads. -/
structure RawDiscussion where
  title : String
  body : String
  userLogin : Option String
  categorySlug : Option String
  createdAt : String
  reactions : Option (List (String × Nat))
  commentsCount : Nat
  htmlUrl : String
  number : Nat
  nodeId : Option String
deriving DecidableEq

/-- The raw JSON shape of a discussion comment, restricted to the fields
the source reads. -/
structure RawComment where
  id : Option Nat
  parentId : Option Nat
  userLogin : Option String
  body : String
  createdAt : String
  nodeId : Option String
  reactions : Option (List (String × Nat))
deriving DecidableEq

/-- `d.reactions ? (d.reactions['+1'] || 0) : 0`. -/
def plusOneOf : Option (List (String × Nat)) → Nat
  | none => 0
  | some r => ((r.find? (fun p => p.1 = "+1")).map Prod.snd).getD 0

/-- The normalized discussion record built by `fetchDiscussion`. -/
structure Discussion where
  title : String
  body : String
  author : String
  authorId : String
  githubAuthor : Option String
  channel : Option String
  timestamp : String
  upvotes : Nat
  commentCount : Nat
  url : String
  number : Nat
  nodeId : Option String
  reactions : List (String × Nat)
deriving DecidableEq

/-- The normalized comment record built by `fetchComments`. -/
structure Comment where
  id : Option Nat
  parentId : Option Nat
  author : String
  authorId : String
  githubAuthor : Option String
  body : String
  timestamp : String
  nodeId : Option String
  reactions : List (String × Nat)
  rawBody : String
deriving DecidableEq

/-- The server oracle: what the discussion read endpoints answer for each
discussion number. -/
structure Server where
  discussionResp : Nat → HttpResult RawDiscussion
  commentsResp : Nat → HttpResult (List RawComment)

/-- Normalization of one raw discussion (the object literal in
`fetchDiscussion`). -/
def normalizeDiscussion (d : RawDiscussion) : Discussion :=
  { title := d.title
    body := stripByline d.body
    author := (extractAuthor d.body).getD (d.userLogin.getD "unknown")
    authorId := (extractAuthor d.body).getD (d.userLogin.getD "unknown")
    githubAuthor := d.userLogin
    channel := d.categorySlug
    timestamp := d.createdAt
    upvotes := plusOneOf d.reactions
    commentCount := d.commentsCount
    url := d.htmlUrl
    number := d.number
    nodeId := strOrNull d.nodeId
    reactions := d.reactions.getD [] }

/-- Normalization of one raw comment (the object literal in
`fetchComments`). -/
def normalizeComment (c : RawComment) : Comment :=
  { id := natOrNull c.id
    parentId := natOrNull c.parentId
    author := (extractAuthor c.body).getD (c.userLogin.getD "unknown")
    authorId := (extractAuthor c.body).getD (c.userLogin.getD "unknown")
    githubAuthor := c.userLogin
    body := stripByline c.body
    timestamp := c.createdAt
    nodeId := strOrNull c.nodeId
    reactions := c.reactions.getD []
    rawBody := c.body }

/-- `RB_DISCUSSIONS.fetchDiscussion`: a non-2xx response returns `null`, a
network error is caught and also returns `null` — never a thrown error. -/
def fetchDiscussion (server : Server) (n : Nat) : Option Discussion :=
  match server.discussionResp n with
  | HttpResult.failure => none
  | HttpResult.success st d => if okStatus st then some (normalizeDiscussion d) else none

/-- `RB_DISCUSSIONS.fetchComments`: a non-2xx response returns `[]`, a
network error is caught and also returns `[]` — never a thrown error. -/
def fetchComments (server : Server) (n : Nat) : List Comment :=
  match server.commentsResp n with
  | HttpResult.failure => []
  | HttpResult.success st cs => if okStatus st then cs.map normalizeComment else []

/-- The network requests an operation issues (for the request traces). -/
inductive NetReq where
  | discussionReq (n : Nat)
  | commentsReq (n : Nat)
  | graphqlReq
  | postCommentReq (n : Nat)
deriving DecidableEq

/-- The observable ingredients of one GraphQL round trip: the HTTP status
and the `errors` array of the response envelope. -/
structure GraphqlEnv where
  status : Nat
  errors : List String
deriving DecidableEq

/-- `RB_DISCUSSIONS.graphql`: without a (truthy) stored token it throws
`'Not authenticated'` synchronously, before any fetch; otherwise one POST
is issued and a non-2xx status or a structured `errors` envelope becomes a
thrown error.  (The success payload itself is abstracted to `Unit`; the
claims only concern the error/request behaviour.) -/
def graphql (token : Option String) (env : GraphqlEnv) : Except String Unit × List NetReq :=
  if RB_AUTH.tokenTruthy token then
    if okStatus env.status then
      if env.errors = [] then (Except.ok (), [NetReq.graphqlReq])
      else (Except.error (String.intercalate ", " env.errors), [NetReq.graphqlReq])
    else (Except.error ("GraphQL request failed: " ++ toString env.status), [NetReq.graphqlReq])
  else (Except.error "Not authenticated", [])

/-- `addReaction` calls straight through `graphql`. -/
def addReaction (token : Option String) (env : GraphqlEnv) : Except String Unit × List NetReq :=
  graphql token env

/-- `removeReaction` calls straight through `graphql`. -/
def removeReaction (token : Option String) (env : GraphqlEnv) : Except String Unit × List NetReq :=
  graphql token env

/-- `updateComment` calls straight through `graphql`. -/
def updateComment (token : Option String) (env : GraphqlEnv) : Except String Unit × List NetReq :=
  graphql token env

/-- `deleteComment` calls straight through `graphql`. -/
def deleteComment (token : Option String) (env : GraphqlEnv) : Except String Unit × List NetReq :=
  graphql token env

/-- `fetchRepoId`: answered from the `_repoInfo` memo when cached, else one
`graphql` query. -/
def fetchRepoId (token : Option String) (cached : Bool) (env : GraphqlEnv) :
    Except String Unit × List NetReq :=
  if cached then (Except.ok (), []) else graphql token env

/-- `createDiscussion`: `fetchRepoId` first, then the create mutation. -/
def createDiscussion (token : Option String) (cached : Bool) (envA envB : GraphqlEnv) :
    Except String Unit × List NetReq :=
  match fetchRepoId token cached envA with
  | (Except.error e, reqs) => (Except.error e, reqs)
  | (Except.ok _, reqs) =>
    let r := graphql token envB
    (r.1, reqs ++ r.2)

/-- `postComment` (REST): the token precondition is checked synchronously
before the fetch. -/
def postComment (token : Option String) (n : Nat) (status : Nat) :
    Except String Unit × List NetReq :=
  if RB_AUTH.tokenTruthy token then
    if okStatus status then (Except.ok (), [NetReq.postCommentReq n])
    else (Except.error ("Failed to post comment: " ++ toString status), [NetReq.postCommentReq n])
  else (Except.error "Not authenticated", [])

/-- `postReply`: token precondition first, then fetch the discussion for
its node id, then the GraphQL reply mutation. -/
def postReply (token : Option String) (server : Server) (n : Nat) (env : GraphqlEnv) :
    Except String Unit × List NetReq :=
  if RB_AUTH.tokenTruthy token then
    match fetchDiscussion server n with
    | none => (Except.error "Discussion not found", [NetReq.discussionReq n])
    | some d =>
      match d.nodeId with
      | none => (Except.error "Discussion not found", [NetReq.discussionReq n])
      | some _ =>
        let r := graphql token env
        (r.1, NetReq.discussionReq n :: r.2)
  else (Except.error "Not authenticated", [])

/-- The line-start suffixes of a string: the string itself, then the
suffix after each newline (the positions where an `m`-flag `^` anchor can
match).  `scanLineStarts pat` succeeds exactly when `pat` succeeds on one
of these. -/
def lineStarts (l : List Char) : List (List Char) := l :: starts l
where
  starts : List Char → List (List Char)
    | [] => []
    | c :: r => if c = '\n' then r :: starts r else starts r

/-- A raw entry of `state/posted_log.json` (fields read by `fetchRecent`). -/
structure RawPost where
  title : String
  author : Option String
  channel : Option String
  timestamp : String
  upvotes : Option Nat
  commentCount : Option Nat
  url : String
  number : Nat
deriving DecidableEq

/-- The normalized feed post. -/
structure Post where
  title : String
  author : String
  authorId : String
  channel : Option String
  timestamp : String
  upvotes : Nat
  commentCount : Nat
  url : String
  number : Nat
deriving DecidableEq

/-- The object literal in `fetchRecent`'s map. -/
def normalizePost (p : RawPost) : Post :=
  { title := p.title
    author := (strOrNull p.author).getD "unknown"
    authorId := (strOrNull p.author).getD "unknown"
    channel := p.channel
    timestamp := p.timestamp
    upvotes := p.upvotes.getD 0
    commentCount := p.commentCount.getD 0
    url := p.url
    number := p.number }

/-- `RB_DISCUSSIONS.fetchRecent` on the happy path (`state/posted_log.json`
loads): reverse the oldest-first log, filter by channel when one is given,
take `limit`, normalize. -/
def fetchRecent (posts : List RawPost) (channelSlug : Option String) (limit : Nat) :
    List Post :=
  let rev := posts.reverse
  let filtered :=
    match channelSlug with
    | none => rev
    | some s => if s = "" then rev else rev.filter (fun p => p.channel = some s)
  (filtered.take limit).map normalizePost

end RB_DISCUSSIONS

namespace RB_RENDER

/-- JavaScript truthiness of an id coming from `c.id` / `c.parentId`. -/
def idTruthy : Option Nat → Bool
  | some i => i ≠ 0
  | none => false

/-- The `byId` map of `renderCommentTree` after the first pass: `Map.set`
is last-wins, so `byId.get i` is the last comment in input order whose
(truthy) id equals `i`. -/
def lookupById (comments : List RB_DISCUSSIONS.Comment) (i : Nat) :
    Option RB_DISCUSSIONS.Comment :=
  if i = 0 then none
  else (comments.filter (fun c => c.id = some i)).getLast?

/-- Second pass of `renderCommentTree`: a comment is a root unless its
parent id is truthy and present in `byId`. -/
def isRoot (comments : List RB_DISCUSSIONS.Comment) (c : RB_DISCUSSIONS.Comment) : Bool :=
  match c.parentId with
  | none => true
  | some p => !(decide (p ≠ 0) && (lookupById comments p).isSome)

/-- The forest's roots, in input order. -/
def commentRoots (comments : List RB_DISCUSSIONS.Comment) : List RB_DISCUSSIONS.Comment :=
  comments.filter (isRoot comments)

/-- The children attached to the comment object `a` by the second pass
(those pushed onto `byId.get(parentId).replies` when that object is `a`),
in input order. -/
def childrenOf (comments : List RB_DISCUSSIONS.Comment) (a : RB_DISCUSSIONS.Comment) :
    List RB_DISCUSSIONS.Comment :=
  comments.filter (fun c =>
    match c.parentId with
    | none => false
    | some p => decide (p ≠ 0) && decide (lookupById comments p = some a))

end RB_RENDER

namespace RB_ROUTER

/-- The page the discussion handler leaves in the DOM. -/
inductive Page where
  | detail (d : RB_DISCUSSIONS.Discussion) (comments : List RB_DISCUSSIONS.Comment)
  | errorView (title : String)
deriving DecidableEq

/-- `RB_ROUTER.handleDiscussion`: the discussion fetch and the comments
fetch are started together (`Promise.all`), then the not-found check is
applied to the discussion result.  Returns the rendered page and the
requests issued. -/
def handleDiscussion (server : RB_DISCUSSIONS.Server) (n : Nat) :
    Page × List RB_DISCUSSIONS.NetReq :=
  (match RB_DISCUSSIONS.fetchDiscussion server n with
   | none => Page.errorView "Discussion not found"
   | some disc => Page.detail disc (RB_DISCUSSIONS.fetchComments server n),
   [RB_DISCUSSIONS.NetReq.discussionReq n, RB_DISCUSSIONS.NetReq.commentsReq n])

/-- `_homeBatchSize` of router.js. -/
def homeBatchSize : Nat := 20

/-- The feed portion of `handleHome`, parametric in the batch size: fetch
`batchSize + 1` recent posts, display at most `batchSize`, and show the
"load more" affordance iff more than `batchSize` came back. -/
def handleHomeFeed (log : List RB_DISCUSSIONS.RawPost) (batchSize : Nat) :
    List RB_DISCUSSIONS.Post × Bool :=
  let recentPosts := RB_DISCUSSIONS.fetchRecent log none (batchSize + 1)
  (recentPosts.take batchSize, decide (recentPosts.length > batchSize))

/-- Outcome of a click on a vote control. -/
inductive VoteOutcome where
  | loginTriggered
  | noNode
  | reacted
deriving DecidableEq

/-- The click handler installed by `attachVoteHandlers`: an unauthenticated
click calls `RB_AUTH.login()` and returns before any mutation; otherwise a
reaction mutation is issued through `add`/`removeReaction`. -/
def voteClick (token : Option String) (nodeId : Option String) (voted : Bool)
    (env : RB_DISCUSSIONS.GraphqlEnv) : VoteOutcome × List RB_DISCUSSIONS.NetReq :=
  if RB_AUTH.isAuthenticated token then
    match RB_DISCUSSIONS.strOrNull nodeId with
    | none => (VoteOutcome.noNode, [])
    | some _ =>
      (VoteOutcome.reacted,
       (if voted then RB_DISCUSSIONS.removeReaction token env
        else RB_DISCUSSIONS.addReaction token env).2)
  else (VoteOutcome.loginTriggered, [])

end RB_ROUTER

namespace SAMPLE

/-- A concrete raw discussion used as a server fixture. -/
def rawDiscussion : RB_DISCUSSIONS.RawDiscussion :=
  { title := "Hello", body := "Body", userLogin := some "rappter-bot",
    categorySlug := some "general", createdAt := "2025-01-01", reactions := none,
    commentsCount := 0, htmlUrl := "u", number := 7, nodeId := some "D_1" }

/-- A server whose read endpoints answer 404 for everything. -/
def server404 : RB_DISCUSSIONS.Server :=
  ⟨fun _ => RB_DISCUSSIONS.HttpResult.success 404 rawDiscussion,
   fun _ => RB_DISCUSSIONS.HttpResult.success 404 []⟩

/-- A server whose read endpoints answer 500 for everything. -/
def server500 : RB_DISCUSSIONS.Server :=
  ⟨fun _ => RB_DISCUSSIONS.HttpResult.success 500 rawDiscussion,
   fun _ => RB_DISCUSSIONS.HttpResult.success 500 []⟩

/-- A server whose read endpoints answer 200 for everything. -/
def serverOk : RB_DISCUSSIONS.Server :=
  ⟨fun _ => RB_DISCUSSIONS.HttpResult.success 200 rawDiscussion,
   fun _ => RB_DISCUSSIONS.HttpResult.success 200 []⟩

/-- A server that is unreachable (every fetch rejects). -/
def serverDown : RB_DISCUSSIONS.Server :=
  ⟨fun _ => RB_DISCUSSIONS.HttpResult.failure, fun _ => RB_DISCUSSIONS.HttpResult.failure⟩

/-- A concrete normalized comment with the given id/parent. -/
def comment (i : Nat) (p : Option Nat) : RB_DISCUSSIONS.Comment :=
  { id := some i, parentId := p, author := "a", authorId := "a", githubAuthor := none,
    body := "b", timestamp := "t", nodeId := none, reactions := [], rawBody := "b" }

/-- A concrete raw feed post numbered `n`. -/
def rawPost (n : Nat) : RB_DISCUSSIONS.RawPost :=
  { title := "p", author := some "a", channel := some "general", timestamp := "t",
    upvotes := some 0, commentCount := some 0, url := "u", number := n }

end SAMPLE

/-! ## Helper lemmas -/

theorem replaceCharL_not_mem_self {c : Char} {rep : List Char} (hc : c ∉ rep) :
    ∀ l : List Char, c ∉ RB_MARKDOWN.replaceCharL c rep l := by
  intro l
  induction l with
  | nil => simp [RB_MARKDOWN.replaceCharL]
  | cons x xs ih =>
    simp only [RB_MARKDOWN.replaceCharL]
    by_cases hx : x = c
    · rw [if_pos hx]
      intro h
      rcases List.mem_append.mp h with h1 | h2
      · exact hc h1
      · exact ih h2
    · rw [if_neg hx]
      intro h
      rcases List.mem_cons.mp h with h1 | h2
      · exact hx h1.symm
      · exact ih h2

theorem replaceCharL_not_mem_of {c d : Char} {rep : List Char} (hc : c ∉ rep) :
    ∀ {l : List Char}, c ∉ l → c ∉ RB_MARKDOWN.replaceCharL d rep l := by
  intro l
  induction l with
  | nil => intro _; simp [RB_MARKDOWN.replaceCharL]
  | cons x xs ih =>
    intro hl
    simp only [RB_MARKDOWN.replaceCharL]
    have hx : c ≠ x := fun he => hl (he ▸ List.mem_cons_self x xs)
    have hxs : c ∉ xs := fun hm => hl (List.mem_cons_of_mem x hm)
    by_cases hd : x = d
    · rw [if_pos hd]
      intro h
      rcases List.mem_append.mp h with h1 | h2
      · exact hc h1
      · exact ih hxs h2
    · rw [if_neg hd]
      intro h
      rcases List.mem_cons.mp h with h1 | h2
      · exact hx h1
      · exact ih hxs h2

theorem escapeHtmlL_no_meta (l : List Char) :
    '<' ∉ RB_MARKDOWN.escapeHtmlL l ∧ '>' ∉ RB_MARKDOWN.escapeHtmlL l ∧
      '"' ∉ RB_MARKDOWN.escapeHtmlL l := by
  unfold RB_MARKDOWN.escapeHtmlL
  refine ⟨?_, ?_, ?_⟩
  · exact replaceCharL_not_mem_of (by decide)
      (replaceCharL_not_mem_of (by decide) (replaceCharL_not_mem_self (by decide) _))
  · exact replaceCharL_not_mem_of (by decide)
      (replaceCharL_not_mem_self (by decide) _)
  · exact replaceCharL_not_mem_self (by decide) _

/-! ## Claim theorems -/

/-- C1 (corrected).  The renderer's first processing step, `escapeHtml`,
unconditionally escapes only FOUR of the five HTML metacharacters —
`&`, `<`, `>`, `"` — on the raw input before any other transform runs
(after it no raw `<`, `>` or `"` remains), while the fifth metacharacter,
the single quote, is left untouched. -/
theorem c1_escape_four_meta_first :
    (∀ s : String, '<' ∉ (RB_MARKDOWN.escapeHtml s).data ∧
      '>' ∉ (RB_MARKDOWN.escapeHtml s).data ∧ '"' ∉ (RB_MARKDOWN.escapeHtml s).data) ∧
    (∀ s : String, s ≠ "" →
      RB_MARKDOWN.render s =
        ⟨RB_MARKDOWN.renderFromEscaped (RB_MARKDOWN.escapeHtml s).data⟩) ∧
    RB_MARKDOWN.escapeHtml ⟨[RB_MARKDOWN.squote]⟩ = ⟨[RB_MARKDOWN.squote]⟩ := by
  refine ⟨fun s => escapeHtmlL_no_meta s.data, fun s hs => ?_, by decide⟩
  simp [RB_MARKDOWN.render, hs, RB_MARKDOWN.renderL, RB_MARKDOWN.escapeHtml]

/-- Witness for C1 at concrete inputs. -/
theorem c1_escape_four_meta_first_witness :
    '<' ∉ (RB_MARKDOWN.escapeHtml "<a&b>").data ∧
    RB_MARKDOWN.render "x" =
      ⟨RB_MARKDOWN.renderFromEscaped (RB_MARKDOWN.escapeHtml "x").data⟩ :=
  ⟨(c1_escape_four_meta_first.1 "<a&b>").1,
   c1_escape_four_meta_first.2.1 "x" (by decide)⟩

/-- C1 counterexample: the claim says all FIVE metacharacters (including
the single quote) are escaped by the first step; in fact `escapeHtml`
leaves `'` unchanged and the raw quote survives into the rendered
output. -/
theorem c1_squote_not_escaped :
    RB_MARKDOWN.escapeHtml ⟨[RB_MARKDOWN.squote]⟩ = ⟨[RB_MARKDOWN.squote]⟩ ∧
    RB_MARKDOWN.squote ∈ (RB_MARKDOWN.render ⟨[RB_MARKDOWN.squote]⟩).data := by
  constructor
  · decide
  · simp +decide [RB_MARKDOWN.render, RB_MARKDOWN.renderL, RB_MARKDOWN.renderFromEscaped,
      RB_MARKDOWN.inlineStages, RB_MARKDOWN.extractFences, RB_MARKDOWN.matchFenceAt,
      RB_MARKDOWN.escapeHtmlL, RB_MARKDOWN.replaceCharL, RB_MARKDOWN.btick,
      RB_MARKDOWN.squote, RB_MARKDOWN.inlineCode, RB_MARKDOWN.headerStage,
      RB_MARKDOWN.mapLines, RB_MARKDOWN.splitNl, RB_MARKDOWN.joinNl,
      RB_MARKDOWN.headerLinePass, RB_MARKDOWN.boldPass, RB_MARKDOWN.italicGo,
      RB_MARKDOWN.linkPass, RB_MARKDOWN.groupLists, RB_MARKDOWN.listStage,
      RB_MARKDOWN.splitBlocks, RB_MARKDOWN.paraStage, RB_MARKDOWN.paraWrap,
      RB_MARKDOWN.trimJs, RB_MARKDOWN.isJsWs, RB_MARKDOWN.startsBlockTag,
      RB_MARKDOWN.brPass, RB_MARKDOWN.findCloseP, RB_MARKDOWN.restoreBlocks,
      RB_MARKDOWN.replaceFirstL, RB_MARKDOWN.nonTick, RB_MARKDOWN.nonStar,
      RB_MARKDOWN.isListLine, RB_MARKDOWN.takeWord, RB_MARKDOWN.isWordChar,
      RB_MARKDOWN.codePlaceholder, List.intercalate, RB_MARKDOWN.tryLink,
      RB_MARKDOWN.linkTxt, RB_MARKDOWN.linkRest, RB_MARKDOWN.findFence,
      RB_MARKDOWN.schemeLen, RB_MARKDOWN.linkAfter, RB_MARKDOWN.urlTail,
      RB_MARKDOWN.urlRest2, RB_MARKDOWN.liOf, RB_MARKDOWN.storedBlock,
      RB_MARKDOWN.stripTrailNl]

/-- If `getCached` invoked the producer, the returned cache stores the
produced value with the call's timestamp, and the call returned it. -/
theorem getCached_invoked {α : Type} {c : String → Option (RB_STATE.CacheEntry α)}
    {t : Nat} {key : String} {f : α}
    (h : (RB_STATE.getCached c t key f).2.2 = true) :
    (RB_STATE.getCached c t key f).2.1 key = some ⟨f, t⟩ ∧
      (RB_STATE.getCached c t key f).1 = f := by
  cases hc : c key with
  | none => constructor <;> simp [RB_STATE.getCached, hc]
  | some e =>
    by_cases hf : RB_STATE.entryFresh e t = true
    · simp [RB_STATE.getCached, hc, hf] at h
    · constructor <;> simp [RB_STATE.getCached, hc, hf]

/-- A cache hit: a stored fresh entry is returned without invoking the
producer and without touching the cache. -/
theorem getCached_hit {α : Type} {c : String → Option (RB_STATE.CacheEntry α)}
    {t : Nat} {key : String} {g : α} {e : RB_STATE.CacheEntry α}
    (he : c key = some e) (hf : RB_STATE.entryFresh e t = true) :
    RB_STATE.getCached c t key g = (e.data, c, false) := by
  simp [RB_STATE.getCached, he, hf]

/-- A cache miss on a stale entry: the producer runs and the entry is
replaced. -/
theorem getCached_stale {α : Type} {c : String → Option (RB_STATE.CacheEntry α)}
    {t : Nat} {key : String} {g : α} {e : RB_STATE.CacheEntry α}
    (he : c key = some e) (hf : ¬ RB_STATE.entryFresh e t = true) :
    RB_STATE.getCached c t key g =
      (g, fun k => if k = key then some ⟨g, t⟩ else c k, true) := by
  simp [RB_STATE.getCached, he, hf]

/-- C3 (confirmed).  Within the 60-second TTL and with no intervening
clear, two `getCached` calls on the same key invoke the producer at most
once and each call returns the value then stored under the key; a call
that invoked the producer followed, after the TTL has elapsed, by another
call makes the producer run a second time. -/
theorem c3_cache_ttl_producer {α : Type} :
    (∀ (c : String → Option (RB_STATE.CacheEntry α)) (t₀ t₁ : Nat) (key : String) (f g : α),
      t₁ - t₀ < RB_STATE.cacheExpiry →
      ¬((RB_STATE.getCached c t₀ key f).2.2 = true ∧
        (RB_STATE.getCached (RB_STATE.getCached c t₀ key f).2.1 t₁ key g).2.2 = true)) ∧
    (∀ (c : String → Option (RB_STATE.CacheEntry α)) (t : Nat) (key : String) (f : α),
      ∃ e, (RB_STATE.getCached c t key f).2.1 key = some e ∧
        e.data = (RB_STATE.getCached c t key f).1) ∧
    (∀ (c : String → Option (RB_STATE.CacheEntry α)) (t₀ t₁ : Nat) (key : String) (f g : α),
      (RB_STATE.getCached c t₀ key f).2.2 = true → t₁ - t₀ < RB_STATE.cacheExpiry →
      (RB_STATE.getCached (RB_STATE.getCached c t₀ key f).2.1 t₁ key g).2.2 = false ∧
      (RB_STATE.getCached (RB_STATE.getCached c t₀ key f).2.1 t₁ key g).1 = f) ∧
    (∀ (c : String → Option (RB_STATE.CacheEntry α)) (t₀ t₁ : Nat) (key : String) (f g : α),
      (RB_STATE.getCached c t₀ key f).2.2 = true → RB_STATE.cacheExpiry ≤ t₁ - t₀ →
      (RB_STATE.getCached (RB_STATE.getCached c t₀ key f).2.1 t₁ key g).2.2 = true) := by
  have hsecond : ∀ (c : String → Option (RB_STATE.CacheEntry α)) (t₀ t₁ : Nat)
      (key : String) (f g : α), (RB_STATE.getCached c t₀ key f).2.2 = true →
      t₁ - t₀ < RB_STATE.cacheExpiry →
      RB_STATE.getCached (RB_STATE.getCached c t₀ key f).2.1 t₁ key g =
        (f, (RB_STATE.getCached c t₀ key f).2.1, false) := by
    intro c t₀ t₁ key f g hinv ht
    have hstore := (getCached_invoked hinv).1
    exact getCached_hit hstore (by simp [RB_STATE.entryFresh]; exact ht)
  refine ⟨?_, ?_, ?_, ?_⟩
  · intro c t₀ t₁ key f g ht ⟨h₀, h₁⟩
    rw [hsecond c t₀ t₁ key f g h₀ ht] at h₁
    simp at h₁
  · intro c t key f
    cases hc : c key with
    | none =>
      refine ⟨⟨f, t⟩, ?_, ?_⟩ <;> simp [RB_STATE.getCached, hc]
    | some e =>
      by_cases hf : RB_STATE.entryFresh e t = true
      · rw [getCached_hit hc hf]
        exact ⟨e, hc, rfl⟩
      · rw [getCached_stale hc hf]
        exact ⟨⟨f, t⟩, by simp, rfl⟩
  · intro c t₀ t₁ key f g hinv ht
    rw [hsecond c t₀ t₁ key f g hinv ht]
    exact ⟨rfl, rfl⟩
  · intro c t₀ t₁ key f g hinv ht
    have hstore := (getCached_invoked hinv).1
    rw [getCached_stale hstore (by simp [RB_STATE.entryFresh]; omega)]

/-- Witness for C3 at a concrete cache, times and key. -/
theorem c3_cache_ttl_producer_witness :
    ((RB_STATE.getCached (α := Nat) (fun _ => none) 0 "stats" 5).2.2 = true →
      RB_STATE.cacheExpiry ≤ 60000 - 0 →
      (RB_STATE.getCached
        (RB_STATE.getCached (α := Nat) (fun _ => none) 0 "stats" 5).2.1 60000 "stats" 6).2.2
        = true) ∧
    ((RB_STATE.getCached (α := Nat) (fun _ => none) 0 "stats" 5).2.2 = true ∧
      (RB_STATE.getCached
        (RB_STATE.getCached (α := Nat) (fun _ => none) 0 "stats" 5).2.1 60000 "stats" 6).2.2
        = true) := by
  refine ⟨c3_cache_ttl_producer.2.2.2 (fun _ => none) 0 60000 "stats" 5 6, ?_, ?_⟩
  · decide
  · exact c3_cache_ttl_producer.2.2.2 (fun _ => none) 0 60000 "stats" 5 6 (by decide) (by decide)

/-- C4 (amended theorem).  `handleDiscussion` always issues BOTH the
discussion request and the comments request (they are started together in
a `Promise.all`), and when the discussion fetch reports not-found the
"Discussion not found" error view is rendered. -/
theorem c4_notfound_but_comments_fetched :
    ∀ (server : RB_DISCUSSIONS.Server) (n : Nat),
      (RB_ROUTER.handleDiscussion server n).2 =
        [RB_DISCUSSIONS.NetReq.discussionReq n, RB_DISCUSSIONS.NetReq.commentsReq n] ∧
      (RB_DISCUSSIONS.fetchDiscussion server n = none →
        (RB_ROUTER.handleDiscussion server n).1 =
          RB_ROUTER.Page.errorView "Discussion not found") ∧
      (∀ d, RB_DISCUSSIONS.fetchDiscussion server n = some d →
        (RB_ROUTER.handleDiscussion server n).1 =
          RB_ROUTER.Page.detail d (RB_DISCUSSIONS.fetchComments server n)) := by
  intro server n
  refine ⟨rfl, fun h => ?_, fun d h => ?_⟩
  · simp [RB_ROUTER.handleDiscussion, h]
  · simp [RB_ROUTER.handleDiscussion, h]

/-- Witness for C4's amended theorem at a concrete server. -/
theorem c4_notfound_but_comments_fetched_witness :
    RB_DISCUSSIONS.fetchDiscussion SAMPLE.server404 999 = none ∧
    (RB_ROUTER.handleDiscussion SAMPLE.server404 999).1 =
      RB_ROUTER.Page.errorView "Discussion not found" :=
  ⟨by decide, (c4_notfound_but_comments_fetched SAMPLE.server404 999).2.1 (by decide)⟩

/-- C4 counterexample: for a discussion number that does not exist, the
router still attempts the comments fetch (the claim says it never does):
the request trace of the dispatch contains the comments request even
though the not-found view is rendered. -/
theorem c4_comments_fetched_for_missing :
    (RB_ROUTER.handleDiscussion SAMPLE.server404 999).1 =
      RB_ROUTER.Page.errorView "Discussion not found" ∧
    RB_DISCUSSIONS.NetReq.commentsReq 999 ∈ (RB_ROUTER.handleDiscussion SAMPLE.server404 999).2 := by
  decide

/-- C5 (confirmed).  The initial feed load requests `batchSize + 1` items;
with more than `N + 1` items in the log exactly `N` are displayed and the
"load more" affordance is shown; with at most `N` items all of them are
displayed and the affordance is hidden. -/
theorem c5_feed_pagination (log : List RB_DISCUSSIONS.RawPost) (N : Nat) :
    RB_ROUTER.handleHomeFeed log N =
      ((RB_DISCUSSIONS.fetchRecent log none (N + 1)).take N,
       decide ((RB_DISCUSSIONS.fetchRecent log none (N + 1)).length > N)) ∧
    (log.length > N + 1 →
      (RB_ROUTER.handleHomeFeed log N).1.length = N ∧
      (RB_ROUTER.handleHomeFeed log N).2 = true) ∧
    (log.length ≤ N →
      (RB_ROUTER.handleHomeFeed log N).1 = log.reverse.map RB_DISCUSSIONS.normalizePost ∧
      (RB_ROUTER.handleHomeFeed log N).2 = false) := by
  have hfr : RB_DISCUSSIONS.fetchRecent log none (N + 1) =
      (log.reverse.take (N + 1)).map RB_DISCUSSIONS.normalizePost := rfl
  have hlen : (RB_DISCUSSIONS.fetchRecent log none (N + 1)).length =
      min (N + 1) log.length := by
    rw [hfr, List.length_map, List.length_take, List.length_reverse]
  refine ⟨rfl, fun hM => ⟨?_, ?_⟩, fun hM => ⟨?_, ?_⟩⟩
  · show ((RB_DISCUSSIONS.fetchRecent log none (N + 1)).take N).length = N
    rw [List.length_take, hlen]
    omega
  · show decide ((RB_DISCUSSIONS.fetchRecent log none (N + 1)).length > N) = true
    rw [hlen]
    simp only [decide_eq_true_eq]
    omega
  · show (RB_DISCUSSIONS.fetchRecent log none (N + 1)).take N =
      log.reverse.map RB_DISCUSSIONS.normalizePost
    rw [hfr, List.take_of_length_le (by
        rw [List.length_map, List.length_take, List.length_reverse]; omega),
      List.take_of_length_le (by rw [List.length_reverse]; omega)]
  · show decide ((RB_DISCUSSIONS.fetchRecent log none (N + 1)).length > N) = false
    rw [hlen]
    simp only [decide_eq_false_iff_not]
    omega

/-- Witness for C5 at concrete logs: four posts with page size 2 (more
available), two posts with page size 3 (all shown, none left). -/
theorem c5_feed_pagination_witness :
    ((RB_ROUTER.handleHomeFeed [SAMPLE.rawPost 1, SAMPLE.rawPost 2, SAMPLE.rawPost 3,
        SAMPLE.rawPost 4] 2).1.length = 2 ∧
      (RB_ROUTER.handleHomeFeed [SAMPLE.rawPost 1, SAMPLE.rawPost 2, SAMPLE.rawPost 3,
        SAMPLE.rawPost 4] 2).2 = true) ∧
    ((RB_ROUTER.handleHomeFeed [SAMPLE.rawPost 1, SAMPLE.rawPost 2] 3).1 =
        [SAMPLE.rawPost 1, SAMPLE.rawPost 2].reverse.map RB_DISCUSSIONS.normalizePost ∧
      (RB_ROUTER.handleHomeFeed [SAMPLE.rawPost 1, SAMPLE.rawPost 2] 3).2 = false) :=
  ⟨(c5_feed_pagination [SAMPLE.rawPost 1, SAMPLE.rawPost 2, SAMPLE.rawPost 3,
      SAMPLE.rawPost 4] 2).2.1 (by decide),
   (c5_feed_pagination [SAMPLE.rawPost 1, SAMPLE.rawPost 2] 3).2.2 (by decide)⟩

/-- C9 (confirmed).  With no stored bearer credential every mutating
operation fails synchronously with `'Not authenticated'` and issues no
network request, and a vote-control click triggers the login flow with no
reaction mutation issued. -/
theorem c9_unauth_mutations_no_request (token : Option String)
    (htok : RB_AUTH.tokenTruthy token = false) :
    ∀ (env envB : RB_DISCUSSIONS.GraphqlEnv) (server : RB_DISCUSSIONS.Server)
      (n st : Nat) (cached : Bool) (nodeId : Option String) (voted : Bool),
      RB_DISCUSSIONS.graphql token env = (Except.error "Not authenticated", []) ∧
      RB_DISCUSSIONS.addReaction token env = (Except.error "Not authenticated", []) ∧
      RB_DISCUSSIONS.removeReaction token env = (Except.error "Not authenticated", []) ∧
      RB_DISCUSSIONS.updateComment token env = (Except.error "Not authenticated", []) ∧
      RB_DISCUSSIONS.deleteComment token env = (Except.error "Not authenticated", []) ∧
      RB_DISCUSSIONS.createDiscussion token cached env envB =
        (Except.error "Not authenticated", []) ∧
      RB_DISCUSSIONS.postComment token n st = (Except.error "Not authenticated", []) ∧
      RB_DISCUSSIONS.postReply token server n env = (Except.error "Not authenticated", []) ∧
      RB_ROUTER.voteClick token nodeId voted env =
        (RB_ROUTER.VoteOutcome.loginTriggered, []) := by
  intro env envB server n st cached nodeId voted
  have hg : ∀ e : RB_DISCUSSIONS.GraphqlEnv,
      RB_DISCUSSIONS.graphql token e = (Except.error "Not authenticated", []) := by
    intro e
    unfold RB_DISCUSSIONS.graphql
    rw [if_neg (by simp [htok])]
  refine ⟨hg env, hg env, hg env, hg env, hg env, ?_, ?_, ?_, ?_⟩
  · cases cached with
    | true => simp [RB_DISCUSSIONS.createDiscussion, RB_DISCUSSIONS.fetchRepoId, hg]
    | false => simp [RB_DISCUSSIONS.createDiscussion, RB_DISCUSSIONS.fetchRepoId, hg]
  · unfold RB_DISCUSSIONS.postComment
    rw [if_neg (by simp [htok])]
  · unfold RB_DISCUSSIONS.postReply
    rw [if_neg (by simp [htok])]
  · unfold RB_ROUTER.voteClick
    rw [if_neg (by simp [RB_AUTH.isAuthenticated, htok])]

/-- Witness for C9 with no token stored. -/
theorem c9_unauth_mutations_no_request_witness :
    RB_DISCUSSIONS.graphql none ⟨200, []⟩ = (Except.error "Not authenticated", []) ∧
    RB_ROUTER.voteClick none (some "node") false ⟨200, []⟩ =
      (RB_ROUTER.VoteOutcome.loginTriggered, []) :=
  ⟨(c9_unauth_mutations_no_request none (by decide) ⟨200, []⟩ ⟨200, []⟩ SAMPLE.serverOk
      0 0 false (some "node") false).1,
   (c9_unauth_mutations_no_request none (by decide) ⟨200, []⟩ ⟨200, []⟩ SAMPLE.serverOk
      0 0 false (some "node") false).2.2.2.2.2.2.2.2⟩

/-- C10 (confirmed).  On the single-discussion and comments read paths any
non-2xx status — 500 as much as 404 — and any network failure produce the
not-found sentinel (`none`) resp. the empty list, with no exception (the
embedding's total `Option`/`List` return types carry no error); a caller
cannot distinguish a 500 from a 404 on these paths. -/
theorem c10_non2xx_reads_not_found :
    ∀ (server : RB_DISCUSSIONS.Server) (n st : Nat),
      (∀ d, server.discussionResp n = RB_DISCUSSIONS.HttpResult.success st d →
        RB_DISCUSSIONS.okStatus st = false →
        RB_DISCUSSIONS.fetchDiscussion server n = none) ∧
      (∀ cs, server.commentsResp n = RB_DISCUSSIONS.HttpResult.success st cs →
        RB_DISCUSSIONS.okStatus st = false →
        RB_DISCUSSIONS.fetchComments server n = []) ∧
      (server.discussionResp n = RB_DISCUSSIONS.HttpResult.failure →
        RB_DISCUSSIONS.fetchDiscussion server n = none) ∧
      (server.commentsResp n = RB_DISCUSSIONS.HttpResult.failure →
        RB_DISCUSSIONS.fetchComments server n = []) ∧
      RB_DISCUSSIONS.fetchDiscussion SAMPLE.server500 n =
        RB_DISCUSSIONS.fetchDiscussion SAMPLE.server404 n ∧
      RB_DISCUSSIONS.fetchComments SAMPLE.server500 n =
        RB_DISCUSSIONS.fetchComments SAMPLE.server404 n := by
  intro server n st
  refine ⟨fun d hd hst => ?_, fun cs hc hst => ?_, fun h => ?_, fun h => ?_, rfl, rfl⟩
  · simp [RB_DISCUSSIONS.fetchDiscussion, hd, hst]
  · simp [RB_DISCUSSIONS.fetchComments, hc, hst]
  · simp [RB_DISCUSSIONS.fetchDiscussion, h]
  · simp [RB_DISCUSSIONS.fetchComments, h]

/-- Witness for C10: a 500 response and a network failure both read as
not-found / empty. -/
theorem c10_non2xx_reads_not_found_witness :
    RB_DISCUSSIONS.fetchDiscussion SAMPLE.server500 1 = none ∧
    RB_DISCUSSIONS.fetchComments SAMPLE.serverDown 1 = [] :=
  ⟨(c10_non2xx_reads_not_found SAMPLE.server500 1 500).1 SAMPLE.rawDiscussion
      (by decide) (by decide),
   (c10_non2xx_reads_not_found SAMPLE.serverDown 1 0).2.2.2.1 (by decide)⟩

/-- A segment recognised as a parameter has the shape `':' :: name`. -/
theorem isParamSeg_shape : ∀ {p : List Char}, RB_ROUTER.isParamSeg p = true →
    p = ':' :: RB_ROUTER.paramName p := by
  intro p h
  match p with
  | [] => simp [RB_ROUTER.isParamSeg] at h
  | [c] => simp [RB_ROUTER.isParamSeg] at h
  | c :: d :: rest =>
    simp [RB_ROUTER.isParamSeg] at h
    subst h
    rfl

/-- `splitSeg` never leaves a slash inside a segment. -/
theorem splitSeg_shape : ∀ l : List Char,
    (∃ s rest, RB_ROUTER.splitSeg l = s :: rest) ∧
      (∀ s ∈ RB_ROUTER.splitSeg l, '/' ∉ s) := by
  intro l
  induction l with
  | nil =>
    refine ⟨⟨[], [], rfl⟩, ?_⟩
    intro s hs
    simp [RB_ROUTER.splitSeg] at hs
    simp [hs]
  | cons c cs ih =>
    obtain ⟨⟨s₀, rest₀, hsplit⟩, hmem⟩ := ih
    by_cases hc : c = '/'
    · refine ⟨⟨[], s₀ :: rest₀, ?_⟩, ?_⟩
      · simp [RB_ROUTER.splitSeg, hsplit, hc]
      · intro s hs
        simp only [RB_ROUTER.splitSeg, hsplit, if_pos hc] at hs
        rcases List.mem_cons.mp hs with h1 | h2
        · simp [h1]
        · exact hmem s (hsplit ▸ h2)
    · refine ⟨⟨c :: s₀, rest₀, ?_⟩, ?_⟩
      · simp [RB_ROUTER.splitSeg, hsplit, hc]
      · intro s hs
        simp only [RB_ROUTER.splitSeg, hsplit, if_neg hc] at hs
        rcases List.mem_cons.mp hs with h1 | h2
        · subst h1
          intro hin
          rcases List.mem_cons.mp hin with h3 | h4
          · exact hc h3.symm
          · exact hmem s₀ (hsplit ▸ List.mem_cons_self s₀ rest₀) h4
        · exact hmem s (hsplit ▸ List.mem_cons_of_mem s₀ h2)

/-- Every binding produced by `matchSegs` pairs a declared `:name` segment
with the non-empty hash segment at the same position. -/
theorem matchSegs_bindings :
    ∀ (ps hs : List (List Char)) (bs : List (List Char × List Char)),
      RB_ROUTER.matchSegs ps hs = some bs →
      ∀ b ∈ bs, b.2 ≠ [] ∧
        ∃ i, ps.get? i = some (':' :: b.1) ∧ hs.get? i = some b.2 := by
  intro ps
  induction ps with
  | nil =>
    intro hs bs h b hb
    cases hs with
    | nil =>
      simp [RB_ROUTER.matchSegs] at h
      subst h
      simp at hb
    | cons x xs => simp [RB_ROUTER.matchSegs] at h
  | cons p ps' ih =>
    intro hs bs h b hb
    cases hs with
    | nil => simp [RB_ROUTER.matchSegs] at h
    | cons x xs =>
      simp only [RB_ROUTER.matchSegs] at h
      cases hrec : RB_ROUTER.matchSegs ps' xs with
      | none => rw [hrec] at h; simp at h
      | some bs' =>
        rw [hrec] at h
        simp only at h
        by_cases hp : RB_ROUTER.isParamSeg p = true
        · rw [if_pos hp] at h
          by_cases hx : x = []
          · rw [if_pos hx] at h; simp at h
          · rw [if_neg hx] at h
            injection h with h'
            subst h'
            rcases List.mem_cons.mp hb with h1 | h2
            · subst h1
              exact ⟨hx, 0, congrArg some (isParamSeg_shape hp), rfl⟩
            · obtain ⟨hne, i, hpi, hhi⟩ := ih xs bs' hrec b h2
              exact ⟨hne, i + 1, by simpa using hpi, by simpa using hhi⟩
        · rw [if_neg hp] at h
          by_cases heq : p = x
          · rw [if_pos heq] at h
            injection h with h'
            rw [← h'] at hb
            obtain ⟨hne, i, hpi, hhi⟩ := ih xs bs' hrec b hb
            exact ⟨hne, i + 1, by simpa using hpi, by simpa using hhi⟩
          · rw [if_neg heq] at h
            simp at h

/-- First-match scan of `matchRouteWith`: if pattern `i` matches and none
before it does, the scan returns pattern `i`'s handler and bindings. -/
theorem matchRouteWith_first {hash : String} :
    ∀ (rs : List (String × String)) (i : Nat) (p h : String)
      (ps : List (String × String)),
      rs.get? i = some (p, h) → RB_ROUTER.matchPattern p hash = some ps →
      (rs.take i).all (fun q => (RB_ROUTER.matchPattern q.1 hash).isNone) = true →
      RB_ROUTER.matchRouteWith rs hash = some (h, ps) := by
  intro rs
  induction rs with
  | nil => intro i p h ps hget; simp at hget
  | cons r rest ih =>
    intro i p h ps hget hm hall
    cases i with
    | zero =>
      simp only [List.get?] at hget
      injection hget with hget'
      subst hget'
      simp [RB_ROUTER.matchRouteWith, hm]
    | succ j =>
      simp only [List.get?] at hget
      rw [List.take_succ_cons, List.all_cons] at hall
      simp only [Bool.and_eq_true] at hall
      obtain ⟨hnone, hrest⟩ := hall
      cases r with
      | mk rp rh =>
        have hmn : RB_ROUTER.matchPattern rp hash = none := by
          simpa [Option.isNone_iff_eq_none] using hnone
        simp only [RB_ROUTER.matchRouteWith, hmn]
        exact ih j p h ps hget hm hrest

/-- `matchRouteWith` fails exactly when no declared pattern matches. -/
theorem matchRouteWith_none {hash : String} :
    ∀ rs : List (String × String),
      RB_ROUTER.matchRouteWith rs hash = none ↔
        ∀ q ∈ rs, RB_ROUTER.matchPattern q.1 hash = none := by
  intro rs
  induction rs with
  | nil => simp [RB_ROUTER.matchRouteWith]
  | cons r rest ih =>
    cases r with
    | mk rp rh =>
      cases hm : RB_ROUTER.matchPattern rp hash with
      | none => simp [RB_ROUTER.matchRouteWith, hm, ih]
      | some v => simp [RB_ROUTER.matchRouteWith, hm]

/-- C2 (confirmed).  `matchRoute` returns the handler of the FIRST
matching pattern in declaration order (later, more specific patterns are
not preferred); each `:name` segment binds, under its declared name, the
non-empty, slash-free hash component at the same position, as a raw
string; a token matching no declared pattern yields the no-match result
`none`. -/
theorem c2_resolve_first_match :
    (∀ (hash : String) (i : Nat) (p h : String) (ps : List (String × String)),
      RB_ROUTER.routes.get? i = some (p, h) →
      RB_ROUTER.matchPattern p hash = some ps →
      (RB_ROUTER.routes.take i).all
        (fun q => (RB_ROUTER.matchPattern q.1 hash).isNone) = true →
      RB_ROUTER.matchRoute hash = some (h, ps)) ∧
    (∀ (pattern hash : String) (ps : List (String × String)),
      RB_ROUTER.matchPattern pattern hash = some ps →
      ∀ nv ∈ ps, nv.2 ≠ "" ∧ '/' ∉ nv.2.data ∧
        ∃ i, (RB_ROUTER.splitSeg pattern.data).get? i = some (':' :: nv.1.data) ∧
          (RB_ROUTER.splitSeg hash.data).get? i = some nv.2.data) ∧
    (∀ hash : String, RB_ROUTER.matchRoute hash = none ↔
      ∀ q ∈ RB_ROUTER.routes, RB_ROUTER.matchPattern q.1 hash = none) := by
  refine ⟨?_, ?_, ?_⟩
  · intro hash i p h ps hget hm hall
    exact matchRouteWith_first RB_ROUTER.routes i p h ps hget hm hall
  · intro pattern hash ps hm nv hnv
    unfold RB_ROUTER.matchPattern at hm
    cases hms : RB_ROUTER.matchSegs (RB_ROUTER.splitSeg pattern.data)
        (RB_ROUTER.splitSeg hash.data) with
    | none => rw [hms] at hm; simp at hm
    | some bs =>
      rw [hms] at hm
      simp only [Option.map_some'] at hm
      injection hm with hm'
      subst hm'
      rw [List.mem_map] at hnv
      obtain ⟨b, hb, hbe⟩ := hnv
      obtain ⟨hne, i, hpi, hhi⟩ := matchSegs_bindings _ _ bs hms b hb
      subst hbe
      refine ⟨?_, ?_, i, hpi, hhi⟩
      · intro he
        exact hne (congrArg String.data he)
      · exact (splitSeg_shape hash.data).2 b.2 (List.get?_mem hhi)
  · intro hash
    exact matchRouteWith_none RB_ROUTER.routes

/-- Witness for C2: `/discussions/42` resolves through the ninth declared
pattern with its `:number` binding; `/agents/a1/soul` hits the earlier
`/agents/:id/soul` pattern, not `/agents/:id`. -/
theorem c2_resolve_first_match_witness :
    RB_ROUTER.matchRoute "/discussions/42" =
      some ("handleDiscussion", [("number", "42")]) ∧
    RB_ROUTER.matchRoute "/agents/a1/soul" = some ("handleSoul", [("id", "a1")]) ∧
    RB_ROUTER.matchRoute "/nope/1/2" = none :=
  ⟨c2_resolve_first_match.1 "/discussions/42" 8 "/discussions/:number" "handleDiscussion"
      [("number", "42")] (by decide) (by decide) (by decide),
   c2_resolve_first_match.1 "/agents/a1/soul" 4 "/agents/:id/soul" "handleSoul"
      [("id", "a1")] (by decide) (by decide) (by decide),
   (c2_resolve_first_match.2.2 "/nope/1/2").mpr (by decide)⟩

/-- C6 (confirmed).  For any input order (any permutation of the three
comments): when B's parent id equals A's id and C's parent id is absent or
dangling, tree construction makes A and C the roots (and only them) and
attaches exactly B as a child of A. -/
theorem c6_comment_tree_forest
    (l : List RB_DISCUSSIONS.Comment) (A B C : RB_DISCUSSIONS.Comment)
    (a b cc : Nat)
    (hperm : l.Perm [A, B, C])
    (hA : A.id = some a) (hB : B.id = some b) (hC : C.id = some cc)
    (ha0 : a ≠ 0) (hb0 : b ≠ 0) (hc0 : cc ≠ 0)
    (hab : a ≠ b) (hac : a ≠ cc) (hbc : b ≠ cc)
    (hAp : A.parentId = none)
    (hBp : B.parentId = some a)
    (hCp : C.parentId = none ∨ ∃ q, C.parentId = some q ∧ q ≠ a ∧ q ≠ b ∧ q ≠ cc) :
    A ∈ RB_RENDER.commentRoots l ∧ C ∈ RB_RENDER.commentRoots l ∧
    B ∉ RB_RENDER.commentRoots l ∧ (RB_RENDER.commentRoots l).length = 2 ∧
    RB_RENDER.childrenOf l A = [B] ∧ RB_RENDER.childrenOf l C = [] := by
  have hba : b ≠ a := Ne.symm hab
  have hca : cc ≠ a := Ne.symm hac
  have hfa : l.filter (fun c => c.id = some a) = [A] := by
    have hperm' := hperm.filter (fun c => c.id = some a)
    have heq : [A, B, C].filter (fun c => c.id = some a) = [A] := by
      simp [List.filter, hA, hB, hC, hba, hca]
    rw [heq] at hperm'
    exact List.perm_singleton.mp hperm'
  have hla : RB_RENDER.lookupById l a = some A := by
    simp [RB_RENDER.lookupById, ha0, hfa]
  have hlq : ∀ q : Nat, q ≠ a → q ≠ b → q ≠ cc → RB_RENDER.lookupById l q = none := by
    intro q hqa hqb hqc
    by_cases hq0 : q = 0
    · simp [RB_RENDER.lookupById, hq0]
    · have hperm' := hperm.filter (fun c => c.id = some q)
      have hnil : [A, B, C].filter (fun c => c.id = some q) = [] := by
        simp [List.filter, hA, hB, hC, Ne.symm hqa, Ne.symm hqb, Ne.symm hqc]
      rw [hnil] at hperm'
      simp [RB_RENDER.lookupById, hq0, hperm'.eq_nil]
  have hrootA : RB_RENDER.isRoot l A = true := by simp [RB_RENDER.isRoot, hAp]
  have hrootB : RB_RENDER.isRoot l B = false := by
    simp [RB_RENDER.isRoot, hBp, hla, ha0]
  have hrootC : RB_RENDER.isRoot l C = true := by
    rcases hCp with hnone | ⟨q, hq, hqa, hqb, hqc⟩
    · simp [RB_RENDER.isRoot, hnone]
    · by_cases hq0 : q = 0
      · simp [RB_RENDER.isRoot, hq, hq0]
      · simp [RB_RENDER.isRoot, hq, hlq q hqa hqb hqc]
  have hroots : (l.filter (RB_RENDER.isRoot l)).Perm [A, C] := by
    have hperm' := hperm.filter (RB_RENDER.isRoot l)
    have heq : [A, B, C].filter (RB_RENDER.isRoot l) = [A, C] := by
      simp [List.filter, hrootA, hrootB, hrootC]
    rw [heq] at hperm'
    exact hperm'
  refine ⟨?_, ?_, ?_, ?_, ?_, ?_⟩
  · exact hroots.mem_iff.mpr (by simp)
  · exact hroots.mem_iff.mpr (by simp)
  · intro hin
    have := (List.mem_filter.mp hin).2
    rw [hrootB] at this
    cases this
  · rw [show RB_RENDER.commentRoots l = l.filter (RB_RENDER.isRoot l) from rfl,
      hroots.length_eq]
    rfl
  · unfold RB_RENDER.childrenOf
    have hperm' := hperm.filter (fun c =>
      match c.parentId with
      | none => false
      | some p => decide (p ≠ 0) && decide (RB_RENDER.lookupById l p = some A))
    have heq : [A, B, C].filter (fun c =>
        match c.parentId with
        | none => false
        | some p => decide (p ≠ 0) && decide (RB_RENDER.lookupById l p = some A)) = [B] := by
      rcases hCp with hnone | ⟨q, hq, hqa, hqb, hqc⟩
      · simp [List.filter, hAp, hBp, hla, ha0, hnone]
      · by_cases hq0 : q = 0
        · simp [List.filter, hAp, hBp, hla, ha0, hq, hq0]
        · simp [List.filter, hAp, hBp, hla, ha0, hq, hlq q hqa hqb hqc]
    rw [heq] at hperm'
    exact List.perm_singleton.mp hperm'
  · have hAC : A ≠ C := by
      intro he
      rw [he, hC] at hA
      exact hac (Option.some.injEq .. ▸ hA.symm ▸ rfl)
    unfold RB_RENDER.childrenOf
    have hperm' := hperm.filter (fun c =>
      match c.parentId with
      | none => false
      | some p => decide (p ≠ 0) && decide (RB_RENDER.lookupById l p = some C))
    have heq : [A, B, C].filter (fun c =>
        match c.parentId with
        | none => false
        | some p => decide (p ≠ 0) && decide (RB_RENDER.lookupById l p = some C)) = [] := by
      rcases hCp with hnone | ⟨q, hq, hqa, hqb, hqc⟩
      · simp [List.filter, hAp, hBp, hla, ha0, hnone, hAC]
      · by_cases hq0 : q = 0
        · simp [List.filter, hAp, hBp, hla, ha0, hq, hq0, hAC]
        · simp [List.filter, hAp, hBp, hla, ha0, hq, hlq q hqa hqb hqc, hAC]
    rw [heq] at hperm'
    exact hperm'.eq_nil

/-- Witness for C6: the comments listed child-first (B, then C, then A)
still produce roots {A, C} with B under A. -/
theorem c6_comment_tree_forest_witness :
    SAMPLE.comment 1 none ∈ RB_RENDER.commentRoots
      [SAMPLE.comment 2 (some 1), SAMPLE.comment 3 (some 9), SAMPLE.comment 1 none] ∧
    SAMPLE.comment 3 (some 9) ∈ RB_RENDER.commentRoots
      [SAMPLE.comment 2 (some 1), SAMPLE.comment 3 (some 9), SAMPLE.comment 1 none] ∧
    SAMPLE.comment 2 (some 1) ∉ RB_RENDER.commentRoots
      [SAMPLE.comment 2 (some 1), SAMPLE.comment 3 (some 9), SAMPLE.comment 1 none] ∧
    (RB_RENDER.commentRoots
      [SAMPLE.comment 2 (some 1), SAMPLE.comment 3 (some 9), SAMPLE.comment 1 none]).length = 2 ∧
    RB_RENDER.childrenOf
      [SAMPLE.comment 2 (some 1), SAMPLE.comment 3 (some 9), SAMPLE.comment 1 none]
      (SAMPLE.comment 1 none) = [SAMPLE.comment 2 (some 1)] ∧
    RB_RENDER.childrenOf
      [SAMPLE.comment 2 (some 1), SAMPLE.comment 3 (some 9), SAMPLE.comment 1 none]
      (SAMPLE.comment 3 (some 9)) = [] :=
  c6_comment_tree_forest
    [SAMPLE.comment 2 (some 1), SAMPLE.comment 3 (some 9), SAMPLE.comment 1 none]
    (SAMPLE.comment 1 none) (SAMPLE.comment 2 (some 1)) (SAMPLE.comment 3 (some 9))
    1 2 3 (by decide) rfl rfl rfl (by decide) (by decide) (by decide) (by decide)
    (by decide) (by decide) rfl rfl
    (Or.inr ⟨9, rfl, by decide, by decide, by decide⟩)

/-- The line-start scan fails exactly when the pattern fails at every
line start. -/
theorem scanLineStarts_none {α : Type} (pat : List Char → Option α) :
    ∀ l : List Char, RB_DISCUSSIONS.scanLineStarts pat l = none ↔
      ∀ s ∈ RB_DISCUSSIONS.lineStarts l, pat s = none := by
  have hgo : ∀ l : List Char, RB_DISCUSSIONS.scanLineStarts.go pat l = none ↔
      ∀ s ∈ RB_DISCUSSIONS.lineStarts.starts l, pat s = none := by
    intro l
    induction l with
    | nil => simp [RB_DISCUSSIONS.scanLineStarts.go, RB_DISCUSSIONS.lineStarts.starts]
    | cons c r ih =>
      by_cases hc : c = '\n'
      · subst hc
        simp only [RB_DISCUSSIONS.scanLineStarts.go, RB_DISCUSSIONS.lineStarts.starts,
          if_pos rfl]
        cases hp : pat r with
        | some a => simp [hp]
        | none => simp [hp, ih]
      · simp only [RB_DISCUSSIONS.scanLineStarts.go, RB_DISCUSSIONS.lineStarts.starts,
          if_neg hc]
        exact ih
  intro l
  unfold RB_DISCUSSIONS.scanLineStarts RB_DISCUSSIONS.lineStarts
  cases hp : pat l with
  | some a => simp [hp]
  | none => simp [hp, hgo]

/-- `takeWhile` over a prefix that satisfies the predicate, broken by the
next character. -/
theorem takeWhile_append_break {p : Char → Bool} :
    ∀ (xs : List Char) (y : Char) (ys : List Char),
      (∀ x ∈ xs, p x = true) → p y = false →
      (xs ++ y :: ys).takeWhile p = xs := by
  intro xs
  induction xs with
  | nil =>
    intro y ys _ hy
    simp [List.takeWhile, hy]
  | cons x xs ih =>
    intro y ys hall hy
    have hx : p x = true := hall x (List.mem_cons_self x xs)
    simp only [List.cons_append, List.takeWhile, hx]
    exact congrArg (List.cons x) (ih y ys (fun z hz => hall z (List.mem_cons_of_mem x hz)) hy)

/-- `dropWhile` is the identity when the head already fails the predicate. -/
theorem dropWhile_eq_self_of_head {p : Char → Bool} {l : List Char}
    (h : ∀ c, l.head? = some c → p c = false) : l.dropWhile p = l := by
  cases l with
  | nil => rfl
  | cons c cs =>
    apply List.dropWhile_cons_of_neg
    simp [h c rfl]

/-- `dropLit` succeeds on an exact prefix. -/
theorem dropLit_append (pat tail : List Char) :
    RB_DISCUSSIONS.dropLit pat (pat ++ tail) = some tail := by
  simp [RB_DISCUSSIONS.dropLit, List.take_left, List.drop_left]

/-- A successful byline match on `opener ++ name ++ "***" ++ rest`. -/
theorem bylineNameAt_pos {opener name rest : List Char}
    (hname : name ≠ []) (hstar : '*' ∉ name) :
    RB_DISCUSSIONS.bylineNameAt opener
      (opener ++ (name ++ '*' :: '*' :: '*' :: rest)) = some (name, rest) := by
  have htw : (name ++ '*' :: '*' :: '*' :: rest).takeWhile (fun x => x ≠ '*') = name := by
    apply takeWhile_append_break
    · intro x hx
      simp
      intro he
      exact hstar (he ▸ hx)
    · simp
  simp only [RB_DISCUSSIONS.bylineNameAt, dropLit_append]
  rw [htw, List.drop_left]
  simp [hname]

/-- A byline match fails when the string's first character is not the
opener's first character. -/
theorem bylineNameAt_none_of_head {opener l : List Char} {c0 : Char} {op2 : List Char}
    (hop : opener = c0 :: op2) (hl : ∀ d, l.head? = some d → d ≠ c0) :
    RB_DISCUSSIONS.bylineNameAt opener l = none := by
  have hne : ¬ List.take opener.length l = opener := by
    intro he
    cases l with
    | nil =>
      rw [List.take_nil, hop] at he
      simp at he
    | cons d ds =>
      have hd := hl d rfl
      rw [hop, List.length_cons, List.take_succ_cons] at he
      injection he with he1 he2
      exact hd he1
  unfold RB_DISCUSSIONS.bylineNameAt RB_DISCUSSIONS.dropLit
  rw [if_neg hne]

/-- C7 (amended theorem).  A body whose FIRST line is the post byline
followed by the `---` separator yields the bylined name and the stripped
content; and when NO line start carries a byline marker, extraction
returns no author and the body is unmodified.  (As the counterexample
shows, a byline at the start of any LATER line is also extracted — the
regex carries the multiline flag — which is what forces this amendment.) -/
theorem c7_byline_extraction :
    (∀ name content : String, name ≠ "" → '*' ∉ name.data →
      (∀ c, content.data.head? = some c →
        RB_MARKDOWN.isJsWs c = false ∧ c ≠ '*') →
      RB_DISCUSSIONS.extractAuthor ("*Posted by **" ++ name ++ "***\n---\n" ++ content) =
        some name ∧
      RB_DISCUSSIONS.stripByline ("*Posted by **" ++ name ++ "***\n---\n" ++ content) =
        content) ∧
    (∀ body : String,
      (∀ s ∈ RB_DISCUSSIONS.lineStarts body.data,
        RB_DISCUSSIONS.bylineNameAt "*Posted by **".data s = none ∧
        RB_DISCUSSIONS.bylineNameAt "*— **".data s = none) →
      RB_DISCUSSIONS.extractAuthor body = none ∧
      RB_DISCUSSIONS.stripByline body = body) := by
  constructor
  · intro name content hname hstar hcontent
    obtain ⟨nd⟩ := name
    obtain ⟨cd⟩ := content
    have hname' : nd ≠ [] := by
      intro h
      exact hname (by rw [show ("" : String) = ⟨[]⟩ from rfl, h])
    have hm := @bylineNameAt_pos "*Posted by **".data nd
      ('\n' :: '-' :: '-' :: '-' :: '\n' :: cd) hname' hstar
    have hdata : (("*Posted by **" ++ (⟨nd⟩ : String) ++ "***\n---\n" ++ (⟨cd⟩ : String))).data =
        "*Posted by **".data ++ (nd ++ '*' :: '*' :: '*' ::
          ('\n' :: '-' :: '-' :: '-' :: '\n' :: cd)) := by
      simp [String.data_append, List.append_assoc]
    have hbody_ne : ("*Posted by **" ++ (⟨nd⟩ : String) ++ "***\n---\n" ++ (⟨cd⟩ : String)) ≠ "" := by
      intro he
      have h2 := congrArg String.data he
      rw [hdata] at h2
      simp at h2
    constructor
    · simp only [RB_DISCUSSIONS.extractAuthor, RB_DISCUSSIONS.scanLineStarts,
        if_neg hbody_ne, hdata, hm]
    · have hstrip : RB_DISCUSSIONS.stripPostBylineAt
          (("*Posted by **" ++ (⟨nd⟩ : String) ++ "***\n---\n" ++ (⟨cd⟩ : String))).data =
          some cd := by
        simp only [RB_DISCUSSIONS.stripPostBylineAt, hdata, hm]
        have htw : ('\n' :: '-' :: '-' :: '-' :: '\n' :: cd).takeWhile RB_MARKDOWN.isJsWs =
            ['\n'] := by
          rw [show ('\n' :: '-' :: '-' :: '-' :: '\n' :: cd) =
            ['\n'] ++ '-' :: ('-' :: '-' :: '\n' :: cd) from rfl]
          apply takeWhile_append_break
          · intro x hx
            simp at hx
            subst hx
            decide
          · decide
        rw [htw]
        simp only [List.length_cons, List.length_nil]
        rw [show List.drop 1 ('\n' :: '-' :: '-' :: '-' :: '\n' :: cd) =
          '-' :: '-' :: '-' :: '\n' :: cd from rfl]
        rw [if_pos (by constructor <;> simp)]
        rw [show List.drop 3 ('-' :: '-' :: '-' :: '\n' :: cd) = '\n' :: cd from rfl]
        rw [show List.dropWhile RB_MARKDOWN.isJsWs ('\n' :: cd) =
          List.dropWhile RB_MARKDOWN.isJsWs cd from by
            rw [List.dropWhile_cons_of_pos]; decide]
        rw [dropWhile_eq_self_of_head (fun c hc => (hcontent c hc).1)]
      have hcmt : RB_DISCUSSIONS.stripCommentBylineAt cd = none := by
        unfold RB_DISCUSSIONS.stripCommentBylineAt
        rw [bylineNameAt_none_of_head rfl (fun d hd => (hcontent d hd).2)]
      simp only [RB_DISCUSSIONS.stripByline, if_neg hbody_ne, hstrip, hcmt]
  · intro body hnone
    by_cases hb : body = ""
    · subst hb
      exact ⟨rfl, rfl⟩
    · have hpost : ∀ s ∈ RB_DISCUSSIONS.lineStarts body.data,
          RB_DISCUSSIONS.bylineNameAt "*Posted by **".data s = none :=
        fun s hs => (hnone s hs).1
      have hcmt : ∀ s ∈ RB_DISCUSSIONS.lineStarts body.data,
          RB_DISCUSSIONS.bylineNameAt "*— **".data s = none :=
        fun s hs => (hnone s hs).2
      have hscan1 := (scanLineStarts_none (RB_DISCUSSIONS.bylineNameAt
        "*Posted by **".data) body.data).mpr hpost
      have hscan2 := (scanLineStarts_none (RB_DISCUSSIONS.bylineNameAt
        "*— **".data) body.data).mpr hcmt
      have hself : body.data ∈ RB_DISCUSSIONS.lineStarts body.data := by
        unfold RB_DISCUSSIONS.lineStarts
        exact List.mem_cons_self _ _
      have hsp : RB_DISCUSSIONS.stripPostBylineAt body.data = none := by
        unfold RB_DISCUSSIONS.stripPostBylineAt
        rw [(hnone body.data hself).1]
      have hsc : RB_DISCUSSIONS.stripCommentBylineAt body.data = none := by
        unfold RB_DISCUSSIONS.stripCommentBylineAt
        rw [(hnone body.data hself).2]
      constructor
      · simp only [RB_DISCUSSIONS.extractAuthor, if_neg hb, hscan1, hscan2]
      · simp only [RB_DISCUSSIONS.stripByline, if_neg hb, hsp, hsc]

/-- Witness for C7 at concrete bodies. -/
theorem c7_byline_extraction_witness :
    (RB_DISCUSSIONS.extractAuthor ("*Posted by **" ++ "Example Agent" ++ "***\n---\n" ++ "hi all") =
        some "Example Agent" ∧
      RB_DISCUSSIONS.stripByline ("*Posted by **" ++ "Example Agent" ++ "***\n---\n" ++ "hi all") =
        "hi all") ∧
    (RB_DISCUSSIONS.extractAuthor "no byline here" = none ∧
      RB_DISCUSSIONS.stripByline "no byline here" = "no byline here") :=
  ⟨c7_byline_extraction.1 "Example Agent" "hi all" (by decide) (by decide)
      (by decide),
   c7_byline_extraction.2 "no byline here" (by decide)⟩

/-- C7 counterexample: a body whose FIRST line carries no byline still
yields an extracted author when a byline opens a LATER line (the `m`
flag), while stripping leaves the body unchanged — against the claim that
such a body extracts no author. -/
theorem c7_later_line_byline_extracted :
    RB_DISCUSSIONS.extractAuthor "hello\n*Posted by **Example Agent***" =
      some "Example Agent" ∧
    RB_DISCUSSIONS.stripByline "hello\n*Posted by **Example Agent***" =
      "hello\n*Posted by **Example Agent***" := by
  constructor
  · decide
  · decide

/-- `replaceCharL` distributes over append. -/
theorem replaceCharL_append (c : Char) (rep : List Char) :
    ∀ l1 l2 : List Char, RB_MARKDOWN.replaceCharL c rep (l1 ++ l2) =
      RB_MARKDOWN.replaceCharL c rep l1 ++ RB_MARKDOWN.replaceCharL c rep l2 := by
  intro l1 l2
  induction l1 with
  | nil => rfl
  | cons x xs ih =>
    simp only [List.cons_append, RB_MARKDOWN.replaceCharL]
    by_cases hx : x = c
    · rw [if_pos hx, if_pos hx, List.append_assoc]
      exact congrArg (fun z => rep ++ z) ih
    · rw [if_neg hx, if_neg hx, List.cons_append]
      exact congrArg (List.cons x) ih

/-- `escapeHtml` distributes over append. -/
theorem escapeHtmlL_append (l1 l2 : List Char) :
    RB_MARKDOWN.escapeHtmlL (l1 ++ l2) =
      RB_MARKDOWN.escapeHtmlL l1 ++ RB_MARKDOWN.escapeHtmlL l2 := by
  simp [RB_MARKDOWN.escapeHtmlL, replaceCharL_append]

/-- `findFence` splits at the first closing fence when the prefix holds no
backtick. -/
theorem findFence_append : ∀ {xs rest : List Char}, RB_MARKDOWN.btick ∉ xs →
    RB_MARKDOWN.findFence (xs ++ RB_MARKDOWN.btick :: RB_MARKDOWN.btick ::
      RB_MARKDOWN.btick :: rest) = some (xs, rest) := by
  intro xs
  induction xs with
  | nil =>
    intro rest _
    simp [RB_MARKDOWN.findFence]
  | cons x xs ih =>
    intro rest h
    have hx : x ≠ RB_MARKDOWN.btick := fun he => h (he ▸ List.mem_cons_self x xs)
    simp only [List.cons_append, RB_MARKDOWN.findFence]
    rw [if_neg (fun hc => hx hc.1)]
    show Option.map (fun p => (x :: p.1, p.2))
      (RB_MARKDOWN.findFence (xs ++ RB_MARKDOWN.btick :: RB_MARKDOWN.btick ::
        RB_MARKDOWN.btick :: rest)) = some (x :: xs, rest)
    rw [ih (fun hm => h (List.mem_cons_of_mem x hm))]
    rfl

/-- Unfolding step of `extractFences` on a successful fence match. -/
theorem extractFences_cons_some {c : Char} {cs : List Char}
    {t : List Char × List Char × List Char}
    (hm : RB_MARKDOWN.matchFenceAt (c :: cs) = some t) (i : Nat) :
    RB_MARKDOWN.extractFences (c :: cs) i =
      (RB_MARKDOWN.codePlaceholder i ++ (RB_MARKDOWN.extractFences t.2.2 (i + 1)).1,
       RB_MARKDOWN.storedBlock t.1 t.2.1 :: (RB_MARKDOWN.extractFences t.2.2 (i + 1)).2) := by
  rw [RB_MARKDOWN.extractFences]
  split
  · rename_i t' hm'
    rw [hm] at hm'
    injection hm' with h'
    subst h'
    rfl
  · rename_i hm'
    rw [hm] at hm'
    cases hm'

/-- `extractFences` on a whole fenced block whose body holds no backtick:
one placeholder, one stored `<pre><code>` block. -/
theorem extractFences_fence {E : List Char} (hbt : RB_MARKDOWN.btick ∉ E) :
    RB_MARKDOWN.extractFences
      (RB_MARKDOWN.btick :: RB_MARKDOWN.btick :: RB_MARKDOWN.btick :: '\n' ::
        (E ++ '\n' :: RB_MARKDOWN.btick :: RB_MARKDOWN.btick :: RB_MARKDOWN.btick :: [])) 0 =
      (RB_MARKDOWN.codePlaceholder 0,
       ["<pre><code>".data ++ (E ++ "</code></pre>".data)]) := by
  have hff : RB_MARKDOWN.findFence (E ++ '\n' :: RB_MARKDOWN.btick :: RB_MARKDOWN.btick ::
      RB_MARKDOWN.btick :: []) = some (E ++ ['\n'], []) := by
    rw [List.append_cons]
    refine findFence_append ?_
    intro hmem
    rcases List.mem_append.mp hmem with h1 | h2
    · exact hbt h1
    · simp [RB_MARKDOWN.btick] at h2
  have hmf : RB_MARKDOWN.matchFenceAt
      (RB_MARKDOWN.btick :: RB_MARKDOWN.btick :: RB_MARKDOWN.btick :: '\n' ::
        (E ++ '\n' :: RB_MARKDOWN.btick :: RB_MARKDOWN.btick :: RB_MARKDOWN.btick :: [])) =
      some ([], E ++ ['\n'], []) := by
    simp [RB_MARKDOWN.matchFenceAt, List.take, List.drop, RB_MARKDOWN.takeWord,
      show RB_MARKDOWN.isWordChar '\n' = false from by decide, hff]
  rw [extractFences_cons_some hmf 0]
  have hstrip : RB_MARKDOWN.stripTrailNl (E ++ ['\n']) = E := by
    simp [RB_MARKDOWN.stripTrailNl, List.getLast?_concat, List.dropLast_concat]
  have hsb : RB_MARKDOWN.storedBlock [] (E ++ ['\n']) =
      "<pre><code>".data ++ (E ++ "</code></pre>".data) := by
    simp [RB_MARKDOWN.storedBlock, hstrip]
  have hnil : RB_MARKDOWN.extractFences ([] : List Char) 1 = ([], []) := by
    rw [RB_MARKDOWN.extractFences]
  rw [hnil, hsb]
  simp

/-- The pipeline stages between extraction and restoration leave a bare
placeholder paragraph-wrapped and otherwise untouched. -/
theorem inlineStages_placeholder :
    RB_MARKDOWN.inlineStages (RB_MARKDOWN.codePlaceholder 0) =
      "<p>%%CODEBLOCK_0%%</p>".data := by
  rw [show RB_MARKDOWN.codePlaceholder 0 = "%%CODEBLOCK_0%%".data from by decide]
  simp +decide [RB_MARKDOWN.inlineStages,
    RB_MARKDOWN.inlineCode, RB_MARKDOWN.headerStage, RB_MARKDOWN.mapLines,
    RB_MARKDOWN.splitNl, RB_MARKDOWN.joinNl, RB_MARKDOWN.headerLinePass,
    RB_MARKDOWN.boldPass, RB_MARKDOWN.italicGo, RB_MARKDOWN.linkPass,
    RB_MARKDOWN.groupLists, RB_MARKDOWN.listStage, RB_MARKDOWN.splitBlocks,
    RB_MARKDOWN.paraStage, RB_MARKDOWN.paraWrap, RB_MARKDOWN.trimJs,
    RB_MARKDOWN.isJsWs, RB_MARKDOWN.startsBlockTag, RB_MARKDOWN.brPass,
    RB_MARKDOWN.findCloseP, RB_MARKDOWN.nonTick, RB_MARKDOWN.nonStar,
    RB_MARKDOWN.isListLine, RB_MARKDOWN.takeWord, RB_MARKDOWN.isWordChar,
    List.intercalate, RB_MARKDOWN.tryLink, RB_MARKDOWN.linkTxt,
    RB_MARKDOWN.linkRest, RB_MARKDOWN.findFence, RB_MARKDOWN.schemeLen,
    RB_MARKDOWN.linkAfter, RB_MARKDOWN.urlTail, RB_MARKDOWN.urlRest2,
    RB_MARKDOWN.liOf, RB_MARKDOWN.btick, RB_MARKDOWN.replaceCharL]

/-- On a `$`-pattern-free replacement template, `getSubstitution` is the
identity. -/
theorem getSubstitution_id {m bb aa : List Char} :
    ∀ l : List Char, RB_MARKDOWN.dollarSafe l = true →
      RB_MARKDOWN.getSubstitution m bb aa l = l
  | [], _ => rfl
  | [c], _ => by
    by_cases hc : c = '$'
    · subst hc
      rfl
    · simp only [RB_MARKDOWN.getSubstitution, if_neg hc]
  | c :: d :: rest, h => by
    rw [show RB_MARKDOWN.dollarSafe (c :: d :: rest) =
        ((!(c = '$' && RB_MARKDOWN.isSubstChar d)) &&
          RB_MARKDOWN.dollarSafe (d :: rest)) from by rw [RB_MARKDOWN.dollarSafe]] at h
    simp only [Bool.and_eq_true, Bool.not_eq_true'] at h
    obtain ⟨hpair, hrest⟩ := h
    by_cases hc : c = '$'
    · subst hc
      have hd1 : d ≠ '$' := by
        intro hh
        subst hh
        simp +decide [RB_MARKDOWN.isSubstChar] at hpair
      have hd2 : d ≠ '&' := by
        intro hh
        subst hh
        simp +decide [RB_MARKDOWN.isSubstChar] at hpair
      have hd3 : d ≠ RB_MARKDOWN.btick := by
        intro hh
        subst hh
        simp +decide [RB_MARKDOWN.isSubstChar, RB_MARKDOWN.btick] at hpair
      have hd4 : d ≠ RB_MARKDOWN.squote := by
        intro hh
        subst hh
        simp +decide [RB_MARKDOWN.isSubstChar, RB_MARKDOWN.squote] at hpair
      rw [show RB_MARKDOWN.getSubstitution m bb aa ('$' :: d :: rest) =
          '$' :: RB_MARKDOWN.getSubstitution m bb aa (d :: rest) from by
        rw [RB_MARKDOWN.getSubstitution]
        simp +decide [hd1, hd2, hd3, hd4]]
      rw [getSubstitution_id (d :: rest) hrest]
    · rw [show RB_MARKDOWN.getSubstitution m bb aa (c :: d :: rest) =
          c :: RB_MARKDOWN.getSubstitution m bb aa (d :: rest) from by
        rw [RB_MARKDOWN.getSubstitution]
        simp [hc]]
      rw [getSubstitution_id (d :: rest) hrest]
termination_by l => l.length
decreasing_by all_goals (simp only [List.length_cons]; omega)

/-- `dollarSafe` is preserved by concatenation when the junction does not
create a pattern. -/
theorem dollarSafe_append : ∀ {a b : List Char},
    RB_MARKDOWN.dollarSafe a = true → RB_MARKDOWN.dollarSafe b = true →
    (∀ x y, a.getLast? = some x → b.head? = some y →
      (!(x = '$' && RB_MARKDOWN.isSubstChar y)) = true) →
    RB_MARKDOWN.dollarSafe (a ++ b) = true
  | [], b, _, hb, _ => hb
  | [x], b, _, hb, hcross => by
    cases b with
    | nil => rw [List.append_nil]; rfl
    | cons y bs =>
      rw [show ([x] ++ y :: bs : List Char) = x :: y :: bs from rfl]
      rw [show RB_MARKDOWN.dollarSafe (x :: y :: bs) =
          ((!(x = '$' && RB_MARKDOWN.isSubstChar y)) &&
            RB_MARKDOWN.dollarSafe (y :: bs)) from by rw [RB_MARKDOWN.dollarSafe]]
      rw [hcross x y rfl rfl, hb]
      rfl
  | x :: x' :: a', b, ha, hb, hcross => by
    rw [show RB_MARKDOWN.dollarSafe (x :: x' :: a') =
        ((!(x = '$' && RB_MARKDOWN.isSubstChar x')) &&
          RB_MARKDOWN.dollarSafe (x' :: a')) from by rw [RB_MARKDOWN.dollarSafe]] at ha
    simp only [Bool.and_eq_true] at ha
    obtain ⟨hpair, hrest⟩ := ha
    have htail := dollarSafe_append (a := x' :: a') hrest hb
      (by
        intro u v hu hv
        exact hcross u v (by rw [← hu]; rfl) hv)
    rw [show ((x :: x' :: a') ++ b : List Char) = x :: ((x' :: a') ++ b) from rfl]
    rw [show RB_MARKDOWN.dollarSafe (x :: ((x' :: a') ++ b)) =
        ((!(x = '$' && RB_MARKDOWN.isSubstChar x')) &&
          RB_MARKDOWN.dollarSafe ((x' :: a') ++ b)) from by
      rw [show ((x' :: a') ++ b : List Char) = x' :: (a' ++ b) from rfl]
      rw [RB_MARKDOWN.dollarSafe]]
    rw [hpair, htail]
    rfl
termination_by a => a.length
decreasing_by all_goals (simp only [List.length_cons]; omega)

/-- C8 (amended theorem).  A fenced code block whose body holds no
backtick and whose ESCAPED body holds no `$`-substitution pattern is
extracted before the inline transforms and restored last: the rendered
output is the escaped body verbatim inside `<pre><code>`, so markdown
markers inside the fence stay literal and the HTML metacharacters inside
it appear escaped.  (The `<pre>` lands inside a `<p>` wrapper: the
block-level test of the paragraph stage requires a leading `<` and
therefore wraps the bare placeholder.  The `$`-pattern restriction is
forced by the restore step being a string-replacement whose `$&` etc.
are expanded — see the counterexample.) -/
theorem c8_fenced_code_block (code : String) (hbt : RB_MARKDOWN.btick ∉ code.data)
    (hds : RB_MARKDOWN.dollarSafe (RB_MARKDOWN.escapeHtmlL code.data) = true) :
    RB_MARKDOWN.render ("```\n" ++ code ++ "\n```") =
      ⟨"<p><pre><code>".data ++ (RB_MARKDOWN.escapeHtmlL code.data ++
        "</code></pre></p>".data)⟩ := by
  have hbtE : RB_MARKDOWN.btick ∉ RB_MARKDOWN.escapeHtmlL code.data := by
    unfold RB_MARKDOWN.escapeHtmlL
    exact replaceCharL_not_mem_of (by decide)
      (replaceCharL_not_mem_of (by decide)
        (replaceCharL_not_mem_of (by decide)
          (replaceCharL_not_mem_of (by decide) hbt)))
  have hne : ("```\n" ++ code ++ "\n```" : String) ≠ "" := by
    intro he
    have h2 := congrArg String.data he
    rw [String.data_append, String.data_append] at h2
    have h3 := congrArg List.length h2
    simp [List.length_append] at h3
  have hE : RB_MARKDOWN.escapeHtmlL ("```\n" ++ code ++ "\n```").data =
      RB_MARKDOWN.btick :: RB_MARKDOWN.btick :: RB_MARKDOWN.btick :: '\n' ::
        (RB_MARKDOWN.escapeHtmlL code.data ++ '\n' :: RB_MARKDOWN.btick ::
          RB_MARKDOWN.btick :: RB_MARKDOWN.btick :: []) := by
    rw [String.data_append, String.data_append, escapeHtmlL_append, escapeHtmlL_append]
    rw [show RB_MARKDOWN.escapeHtmlL "```\n".data =
      [RB_MARKDOWN.btick, RB_MARKDOWN.btick, RB_MARKDOWN.btick, '\n'] from by decide]
    rw [show RB_MARKDOWN.escapeHtmlL "\n```".data =
      ['\n', RB_MARKDOWN.btick, RB_MARKDOWN.btick, RB_MARKDOWN.btick] from by decide]
    simp [List.append_assoc]
  unfold RB_MARKDOWN.render
  rw [if_neg hne]
  refine congrArg String.mk ?_
  show RB_MARKDOWN.renderFromEscaped
    (RB_MARKDOWN.escapeHtmlL ("```\n" ++ code ++ "\n```").data) = _
  rw [hE]
  unfold RB_MARKDOWN.renderFromEscaped
  rw [extractFences_fence hbtE]
  show RB_MARKDOWN.restoreBlocks
      ["<pre><code>".data ++ (RB_MARKDOWN.escapeHtmlL code.data ++ "</code></pre>".data)] 0
      (RB_MARKDOWN.inlineStages (RB_MARKDOWN.codePlaceholder 0)) = _
  rw [inlineStages_placeholder]
  show RB_MARKDOWN.replaceFirstL (RB_MARKDOWN.codePlaceholder 0)
      ("<pre><code>".data ++ (RB_MARKDOWN.escapeHtmlL code.data ++ "</code></pre>".data))
      ("<p>%%CODEBLOCK_0%%</p>".data) = _
  rw [show ∀ rep : List Char, RB_MARKDOWN.replaceFirstL (RB_MARKDOWN.codePlaceholder 0) rep
      ("<p>%%CODEBLOCK_0%%</p>".data) = "<p>".data ++
        (RB_MARKDOWN.getSubstitution (RB_MARKDOWN.codePlaceholder 0) "<p>".data
          "</p>".data rep ++ "</p>".data) from
    fun rep => rfl]
  have hsafe1 : RB_MARKDOWN.dollarSafe
      (RB_MARKDOWN.escapeHtmlL code.data ++ "</code></pre>".data) = true := by
    refine dollarSafe_append hds (by decide) ?_
    intro x y hx hy
    have hy' : y = '<' := by
      have hh : ("</code></pre>".data).head? = some '<' := by decide
      rw [hh] at hy
      injection hy with h
      exact h.symm
    subst hy'
    simp +decide [RB_MARKDOWN.isSubstChar]
  have hsafe2 : RB_MARKDOWN.dollarSafe ("<pre><code>".data ++
      (RB_MARKDOWN.escapeHtmlL code.data ++ "</code></pre>".data)) = true := by
    refine dollarSafe_append (by decide) hsafe1 ?_
    intro x y hx hy
    have hx' : x = '>' := by
      have hh : ("<pre><code>".data).getLast? = some '>' := by decide
      rw [hh] at hx
      injection hx with h
      exact h.symm
    subst hx'
    simp +decide
  rw [getSubstitution_id _ hsafe2]
  rw [List.append_assoc "<pre><code>".data
    (RB_MARKDOWN.escapeHtmlL code.data ++ "</code></pre>".data) "</p>".data]
  rw [List.append_assoc (RB_MARKDOWN.escapeHtmlL code.data) "</code></pre>".data "</p>".data]
  rw [show ("</code></pre>".data : List Char) ++ "</p>".data = "</code></pre></p>".data from
    by decide]
  rw [← List.append_assoc "<p>".data "<pre><code>".data
    (RB_MARKDOWN.escapeHtmlL code.data ++ "</code></pre></p>".data)]
  rw [show ("<p>".data : List Char) ++ "<pre><code>".data = "<p><pre><code>".data from
    by decide]

/-- Witness for C8: a fence containing `**not bold**` and the four HTML
metacharacters renders as literal, escaped text inside a code element. -/
theorem c8_fenced_code_block_witness :
    RB_MARKDOWN.btick ∉ ("**not bold** <>&\"" : String).data ∧
    RB_MARKDOWN.dollarSafe
      (RB_MARKDOWN.escapeHtmlL ("**not bold** <>&\"" : String).data) = true ∧
    RB_MARKDOWN.render ("```\n" ++ "**not bold** <>&\"" ++ "\n```") =
      "<p><pre><code>**not bold** &lt;&gt;&amp;&quot;</code></pre></p>" :=
  ⟨by decide, by decide,
   (c8_fenced_code_block "**not bold** <>&\"" (by decide) (by decide)).trans (by decide)⟩

/-- C8 counterexample to the unamended claim: the code-block restore is a
JavaScript string `replace`, so a `$&` in the stored block (here produced
by escaping the fence body `$&` to `$&amp;`) is expanded to the matched
placeholder text rather than kept verbatim: the fence body `$&` renders
as `%%CODEBLOCK_0%%amp;` inside the code element, not as the escaped
body `$&amp;`. -/
theorem c8_restore_expands_dollar_pattern :
    RB_MARKDOWN.render ("```\n$&\n```") =
      "<p><pre><code>%%CODEBLOCK_0%%amp;</code></pre></p>" ∧
    RB_MARKDOWN.render ("```\n$&\n```") ≠
      "<p><pre><code>$&amp;</code></pre></p>" := by
  have h : RB_MARKDOWN.render ("```\n$&\n```") =
      "<p><pre><code>%%CODEBLOCK_0%%amp;</code></pre></p>" := by
    have hbtE : RB_MARKDOWN.btick ∉ RB_MARKDOWN.escapeHtmlL ("$&" : String).data := by
      decide
    have hne : ("```\n$&\n```" : String) ≠ "" := by decide
    unfold RB_MARKDOWN.render
    rw [if_neg hne]
    refine congrArg String.mk ?_
    show RB_MARKDOWN.renderFromEscaped
      (RB_MARKDOWN.escapeHtmlL ("```\n$&\n```" : String).data) = _
    rw [show RB_MARKDOWN.escapeHtmlL ("```\n$&\n```" : String).data =
        RB_MARKDOWN.btick :: RB_MARKDOWN.btick :: RB_MARKDOWN.btick :: '\n' ::
          (RB_MARKDOWN.escapeHtmlL ("$&" : String).data ++ '\n' :: RB_MARKDOWN.btick ::
            RB_MARKDOWN.btick :: RB_MARKDOWN.btick :: []) from by decide]
    unfold RB_MARKDOWN.renderFromEscaped
    rw [extractFences_fence hbtE]
    show RB_MARKDOWN.restoreBlocks
        ["<pre><code>".data ++
          (RB_MARKDOWN.escapeHtmlL ("$&" : String).data ++ "</code></pre>".data)] 0
        (RB_MARKDOWN.inlineStages (RB_MARKDOWN.codePlaceholder 0)) = _
    rw [inlineStages_placeholder]
    decide
  exact ⟨h, by rw [h]; decide⟩
